import Mathlib

/-!
2DFlightSimulator: integrator and aerodynamic data table.

A shallow embedding of

* `FlightDynamics/src/integrator.cpp` (`computeDerivatives`, `trapezoidalStep`),
* `src/aerodynamics/aero_data.hpp` (`AeroDataTable::loadFromCSV`, `interpolate`, `getCL`,
  `getCD`, `getMinAlpha`, `getMaxAlpha`, `isEmpty`),
* the scalar functions of `aerodynamics/aero.hpp`, whose bodies are not among the sources
  and are modelled from the specification.

Modelling conventions.

* A C++ `double` is a `Double K`: either `val v` with `v` in a linearly ordered field `K`
  (exact arithmetic, no rounding and no overflow), or `undef`, which stands for the outcome
  of a division by zero (an IEEE infinity or NaN) and for everything computed from it.
  Arithmetic is strict in `undef`, and every comparison with `undef` is false, as it is
  for NaN.  The definitions are generic in `K` and computable, so they evaluate over `ℚ`;
  theorems that need trigonometry are stated at `K = ℝ` with `Real.cos` and `Real.sin`.
* `cos` and `sin` from `<cmath>` are the two function arguments `cosf` and `sinf` of the
  integrator.
* `std::vector<DataPoint>` is a `List`; `data[i]` is `List.getD` whose default is the point
  with three `undef` fields.  Every index the code evaluates is in bounds; the default is
  only read where the C++ short-circuits (`front()` and `back()` of an empty table), and
  there it does not reach the result.
* A table whose fields are all real numbers is `AeroDataTable.ofPoints ps` for a list `ps`
  of real points, and a state of real numbers is `AircraftState.lift s`; the theorems
  quantify over `ps` and `s`.
* A data source is its list of lines, or `none` when it cannot be opened; `std::stod` is an
  argument of the loader, `std::sort` an insertion sort.
* Whether a divisor of the integrator is zero depends on rounding, so for that question the
  integrator is also given with every arithmetic result passed through a rounding function
  (`computeDerivativesRounded`, `trapezoidalStepRounded`); the identity gives back the exact
  functions.
-/

set_option linter.unusedSectionVars false

namespace FlightSim

/-! ## Numbers -/

/-- An idealised C++ `double` over the field `K`: a value of `K`, or `undef` for the outcome
of a division by zero and anything computed from it. -/
inductive Double (K : Type) where
  | val (v : K)
  | undef
  deriving DecidableEq, Repr

namespace Double

variable {K : Type} [LinearOrderedField K]

/-- Apply a unary real function; `undef` is propagated. -/
def map (f : K → K) : Double K → Double K
  | val a => val (f a)
  | undef => undef

/-- Apply a binary real function; `undef` is propagated from either argument. -/
def map₂ (f : K → K → K) : Double K → Double K → Double K
  | val a, val b => val (f a b)
  | _, _ => undef

instance : Add (Double K) := ⟨map₂ (· + ·)⟩
instance : Sub (Double K) := ⟨map₂ (· - ·)⟩
instance : Mul (Double K) := ⟨map₂ (· * ·)⟩

/-- Division: undefined when the divisor is zero. -/
def div : Double K → Double K → Double K
  | val a, val b => if b = 0 then undef else val (a / b)
  | _, _ => undef

instance : Div (Double K) := ⟨div⟩

instance : OfScientific (Double K) :=
  ⟨fun m s e => val (OfScientific.ofScientific m s e)⟩

/-- The comparison `a < b` of two doubles; false as soon as one side is `undef`. -/
def lt : Double K → Double K → Prop
  | val a, val b => a < b
  | _, _ => False

/-- The comparison `a <= b` of two doubles; false as soon as one side is `undef`. -/
def le : Double K → Double K → Prop
  | val a, val b => a ≤ b
  | _, _ => False

instance : LT (Double K) := ⟨lt⟩
instance : LE (Double K) := ⟨le⟩

instance :
    DecidableRel (fun a b : Double K => a < b)
  | val a, val b => inferInstanceAs (Decidable (a < b))
  | val _, undef => isFalse (fun h => h)
  | undef, _ => isFalse (fun h => h)

instance :
    DecidableRel (fun a b : Double K => a ≤ b)
  | val a, val b => inferInstanceAs (Decidable (a ≤ b))
  | val _, undef => isFalse (fun h => h)
  | undef, _ => isFalse (fun h => h)

/-- The function `std::abs` on doubles. -/
def abs : Double K → Double K := map (fun a => |a|)

/-- The function `std::max(a, b)`, which is `(a < b) ? b : a`. -/
def max (a b : Double K) : Double K :=
  if a < b then b else a

end Double

open Double (val undef)

variable {K : Type} [LinearOrderedField K]

/-! ## Integrator (`integrator.hpp`, `integrator.cpp`) -/

/-- Aircraft state of `integrator.hpp`: position `x`, `z`, speed `V`, flight-path angle
`gamma`, over the number type `N`. -/
structure AircraftState (N : Type) where
  x : N
  z : N
  V : N
  gamma : N

/-- Time derivatives of the state, `struct Derivatives` of `integrator.cpp`. -/
structure Derivatives (N : Type) where
  dx : N
  dz : N
  dV : N
  dgamma : N

/-- The state with the given real components, as a state of doubles. -/
def AircraftState.lift (s : AircraftState K) : AircraftState (Double K) :=
  ⟨val s.x, val s.z, val s.V, val s.gamma⟩

/-- The function `computeDerivatives` of `integrator.cpp`, lines 12-26. -/
def computeDerivatives (cosf sinf : K → K) (state : AircraftState (Double K))
    (L D W T mass : Double K) : Derivatives (Double K) :=
  { dx := state.V * state.gamma.map cosf
    dz := state.V * state.gamma.map sinf
    dV := (T - D - W * state.gamma.map sinf) / mass
    dgamma :=
      if state.V.abs < 1e-9 then 0.0
      else (L - W * state.gamma.map cosf) / (mass * state.V) }

/-- The function `trapezoidalStep` of `integrator.cpp`, lines 28-52. -/
def trapezoidalStep (cosf sinf : K → K) (state : AircraftState (Double K))
    (L D W T mass dt : Double K) : AircraftState (Double K) :=
  let d1 := computeDerivatives cosf sinf state L D W T mass
  let state_star : AircraftState (Double K) :=
    { x := state.x + dt * d1.dx
      z := state.z + dt * d1.dz
      V := state.V + dt * d1.dV
      gamma := state.gamma + dt * d1.dgamma }
  let d2 := computeDerivatives cosf sinf state_star L D W T mass
  { x := state.x + dt * 0.5 * (d1.dx + d2.dx)
    z := state.z + dt * 0.5 * (d1.dz + d2.dz)
    V := state.V + dt * 0.5 * (d1.dV + d2.dV)
    gamma := state.gamma + dt * 0.5 * (d1.dgamma + d2.dgamma) }

/-! ## The integrator with rounded arithmetic

The same two functions with the result of every arithmetic operation passed through a
rounding function `fl`, the standard model of floating-point arithmetic; `cosf` and `sinf`
are then the rounded library functions.  With `fl` the identity this is the exact
embedding above.  Overflow to an infinity is outside this model as well. -/

/-- The function `computeDerivatives` of `integrator.cpp`, lines 12-26, with every
arithmetic result rounded by `fl`. -/
def computeDerivativesRounded (fl : K → K) (cosf sinf : K → K)
    (state : AircraftState (Double K)) (L D W T mass : Double K) : Derivatives (Double K) :=
  { dx := (state.V * state.gamma.map cosf).map fl
    dz := (state.V * state.gamma.map sinf).map fl
    dV := (((T - D).map fl - (W * state.gamma.map sinf).map fl).map fl / mass).map fl
    dgamma :=
      if state.V.abs < 1e-9 then 0.0
      else ((L - (W * state.gamma.map cosf).map fl).map fl
        / (mass * state.V).map fl).map fl }

/-- The function `trapezoidalStep` of `integrator.cpp`, lines 28-52, with every arithmetic
result rounded by `fl`. -/
def trapezoidalStepRounded (fl : K → K) (cosf sinf : K → K)
    (state : AircraftState (Double K)) (L D W T mass dt : Double K) :
    AircraftState (Double K) :=
  let d1 := computeDerivativesRounded fl cosf sinf state L D W T mass
  let state_star : AircraftState (Double K) :=
    { x := (state.x + (dt * d1.dx).map fl).map fl
      z := (state.z + (dt * d1.dz).map fl).map fl
      V := (state.V + (dt * d1.dV).map fl).map fl
      gamma := (state.gamma + (dt * d1.dgamma).map fl).map fl }
  let d2 := computeDerivativesRounded fl cosf sinf state_star L D W T mass
  { x := (state.x + ((dt * 0.5).map fl * (d1.dx + d2.dx).map fl).map fl).map fl
    z := (state.z + ((dt * 0.5).map fl * (d1.dz + d2.dz).map fl).map fl).map fl
    V := (state.V + ((dt * 0.5).map fl * (d1.dV + d2.dV).map fl).map fl).map fl
    gamma := (state.gamma
      + ((dt * 0.5).map fl * (d1.dgamma + d2.dgamma).map fl).map fl).map fl }

/-- A rounding that is exact except for underflow to zero: a result of magnitude at most
`2^-1075`, half the smallest positive double `2^-1074`, becomes `0`, as it does under the
IEEE-754 rounding to nearest. -/
def flushUnderflow (x : K) : K := if |x| ≤ 1 / 2 ^ 1075 then 0 else x

/-! ## Aerodynamic data table (`aero_data.hpp`) -/

/-- The struct `AeroDataTable::DataPoint`: angle of attack in radians, lift coefficient,
drag coefficient, over the number type `N`. -/
structure DataPoint (N : Type) where
  alpha : N
  CL : N
  CD : N

/-- The class `AeroDataTable`: its only member is the vector `data`. -/
structure AeroDataTable (K : Type) where
  data : List (DataPoint (Double K))

/-- The point with the given real fields, as a point of doubles. -/
def DataPoint.lift (p : DataPoint K) : DataPoint (Double K) :=
  ⟨val p.alpha, val p.CL, val p.CD⟩

namespace AeroDataTable

/-- The table that holds the given real points, in the given order. -/
def ofPoints (ps : List (DataPoint K)) : AeroDataTable K :=
  ⟨ps.map DataPoint.lift⟩

/-- The element access `data[i]`. -/
def nth (t : AeroDataTable K) (i : ℕ) : DataPoint (Double K) :=
  t.data.getD i ⟨undef, undef, undef⟩

/-- The call `data.front()`. -/
def front (t : AeroDataTable K) : DataPoint (Double K) := t.nth 0

/-- The call `data.back()`. -/
def back (t : AeroDataTable K) : DataPoint (Double K) := t.nth (t.data.length - 1)

/-- The method `isEmpty` of `aero_data.hpp`, line 131. -/
def isEmpty (t : AeroDataTable K) : Bool := t.data.isEmpty

/-- The method `getMinAlpha` of `aero_data.hpp`, line 128. -/
def getMinAlpha (t : AeroDataTable K) : Double K :=
  if t.data.isEmpty then 0.0 else t.front.alpha

/-- The method `getMaxAlpha` of `aero_data.hpp`, line 129. -/
def getMaxAlpha (t : AeroDataTable K) : Double K :=
  if t.data.isEmpty then 0.0 else t.back.alpha

/-- The `for` loop of `interpolate`, lines 164-172: `k` is the number of iterations left and
`i` the loop index; `some v` is the `return v` inside the loop, `none` is falling out of it. -/
def interpolateLoop (t : AeroDataTable K) (alpha : Double K)
    (getValue : DataPoint (Double K) → Double K) : ℕ → ℕ → Option (Double K)
  | 0, _ => none
  | k + 1, i =>
    if alpha ≥ (t.nth i).alpha ∧ alpha ≤ (t.nth (i + 1)).alpha then
      let tt := (alpha - (t.nth i).alpha) / ((t.nth (i + 1)).alpha - (t.nth i).alpha)
      some (getValue (t.nth i) + tt * (getValue (t.nth (i + 1)) - getValue (t.nth i)))
    else
      interpolateLoop t alpha getValue k (i + 1)

/-- The method `interpolate` of `aero_data.hpp`, lines 137-175.  The loop runs for
`i = 0, ..., data.size() - 2`, that is `data.size() - 1` iterations from index `0`. -/
def interpolate (t : AeroDataTable K) (alpha : Double K)
    (getValue : DataPoint (Double K) → Double K) : Double K :=
  if t.data.isEmpty then 0.0
  else if t.data.length = 1 then getValue t.front
  else if alpha < t.front.alpha then
    let slope := (getValue (t.nth 1) - getValue (t.nth 0))
      / ((t.nth 1).alpha - (t.nth 0).alpha)
    let delta_alpha := alpha - t.front.alpha
    getValue t.front + slope * delta_alpha
  else if alpha > t.back.alpha then
    let n := t.data.length
    let slope := (getValue (t.nth (n - 1)) - getValue (t.nth (n - 2)))
      / ((t.nth (n - 1)).alpha - (t.nth (n - 2)).alpha)
    let delta_alpha := alpha - t.back.alpha
    getValue t.back + slope * delta_alpha
  else
    match t.interpolateLoop alpha getValue (t.data.length - 1) 0 with
    | some v => v
    | none => getValue t.back

/-- The method `getCL` of `aero_data.hpp`, lines 93-104. -/
def getCL (t : AeroDataTable K) (alpha : Double K) : Double K :=
  let CL := t.interpolate alpha (fun p => p.CL)
  if ¬ t.data.isEmpty ∧ (alpha < t.front.alpha ∨ alpha > t.back.alpha) then
    Double.max 0.0 CL
  else CL

/-- The method `getCD` of `aero_data.hpp`, lines 107-125. -/
def getCD (t : AeroDataTable K) (alpha : Double K) : Double K :=
  let CD := t.interpolate alpha (fun p => p.CD)
  if ¬ t.data.isEmpty then
    if alpha < t.front.alpha then t.front.CD
    else if alpha > t.back.alpha then t.back.CD
    else CD
  else CD

end AeroDataTable

/-! ## Loading a table (`AeroDataTable::loadFromCSV`, `aero_data.hpp` lines 29-90)

The data source is an `Option (List (List Char))`: `none` when `file.is_open()` is false,
otherwise the lines that the successive calls `std::getline(file, line)` deliver.  The
library function `std::stod` is the argument `stod`, which gives the converted real number
or `none` when the library throws (`std::invalid_argument`) because the token does not
start with a number; tokens that convert to an infinity or a NaN are outside the model.
The exception is caught nowhere in `loadFromCSV`, so it leaves the function. -/

/-- The macro `M_PI` of `aero_data.hpp`, line 12. -/
def M_PI : Double K := 3.14159265358979323846

/-- The ways in which `loadFromCSV` is left by an exception: the two `std::runtime_error`
thrown at lines 36 and 81, and the exception of `std::stod` at lines 64, 69 and 74. -/
inductive LoadFailure where
  | failedToOpen
  | noValidData
  | stodFailed
  deriving DecidableEq, Repr

/-- What the body of the `while` loop does with one line that reaches the parser: `continue`
without a point, leave by the exception of `std::stod`, or `push_back` a point. -/
inductive LineOutcome (K : Type) where
  | skipped
  | threw
  | point (p : DataPoint (Double K))

/-- The test `line.empty() || line.find_first_not_of(" \t\r\n") == std::string::npos`. -/
def isBlankLine (line : List Char) : Bool :=
  line.all (fun c => c == ' ' || c == '\t' || c == '\r' || c == '\n')

/-- The test `std::isalpha(line[0])` on a line. -/
def startsWithLetter : List Char → Bool
  | [] => false
  | c :: _ => c.isAlpha

/-- The call `std::getline(ss, token, ',')` on the characters left in the stream: `none`
when nothing is left (the call fails), otherwise the token up to the next comma or the end,
and the characters left after that comma. -/
def getToken : List Char → Option (List Char × List Char)
  | [] => none
  | c :: cs =>
    if c = ',' then some ([], cs)
    else
      match getToken cs with
      | none => some ([c], [])
      | some (token, rest) => some (c :: token, rest)

/-- All the tokens that repeated calls `std::getline(ss, token, ',')` read from a line: its
comma-separated fields, where a comma at the very end does not start a further field. -/
def tokens : List Char → List (List Char)
  | [] => []
  | c :: cs =>
    if c = ',' then [] :: tokens cs
    else
      match tokens cs with
      | [] => [[c]]
      | token :: rest => (c :: token) :: rest

/-- The body of the `while` loop of `loadFromCSV` from line 57 on: read and convert up to
three tokens. -/
def parseLine (stod : List Char → Option K) (line : List Char) : LineOutcome K :=
  match getToken line with
  | none => .skipped
  | some (token1, rest1) =>
    match stod token1 with
    | none => .threw
    | some a =>
      match getToken rest1 with
      | none => .skipped
      | some (token2, rest2) =>
        match stod token2 with
        | none => .threw
        | some cl =>
          match getToken rest2 with
          | none => .skipped
          | some (token3, _) =>
            match stod token3 with
            | none => .threw
            | some cd => .point ⟨val a * M_PI / 180.0, val cl, val cd⟩

/-- The `while` loop of `loadFromCSV`, lines 42-77, over the lines still to be read, with
the flag `firstLine` and the vector `table.data` built so far. -/
def readLines (stod : List Char → Option K) :
    List (List Char) → Bool → List (DataPoint (Double K)) →
      Except LoadFailure (List (DataPoint (Double K)))
  | [], _, data => .ok data
  | line :: rest, firstLine, data =>
    if isBlankLine line then readLines stod rest firstLine data
    else if firstLine && startsWithLetter line then readLines stod rest false data
    else
      match parseLine stod line with
      | .skipped => readLines stod rest false data
      | .threw => .error .stodFailed
      | .point p => readLines stod rest false (data ++ [p])

/-- The lines that the `while` loop hands to the parser: the non-blank lines, without the
first of them when it starts with a letter. -/
def dataLines : List (List Char) → Bool → List (List Char)
  | [], _ => []
  | line :: rest, firstLine =>
    if isBlankLine line then dataLines rest firstLine
    else if firstLine && startsWithLetter line then dataLines rest false
    else line :: dataLines rest false

/-- The points that the parser makes of a list of lines, in order. -/
def parsedRows (stod : List Char → Option K) (lines : List (List Char)) :
    List (DataPoint (Double K)) :=
  lines.filterMap (fun line =>
    match parseLine stod line with
    | .point p => some p
    | _ => none)

/-- Insert a point before the first point with a larger `alpha`. -/
def insertByAlpha (p : DataPoint (Double K)) :
    List (DataPoint (Double K)) → List (DataPoint (Double K))
  | [] => [p]
  | q :: qs => if p.alpha < q.alpha then p :: q :: qs else q :: insertByAlpha p qs

/-- The call `std::sort` with the comparison `a.alpha < b.alpha`, lines 85-87, as an
insertion sort.  The library does not fix the order of points with equal `alpha`; the
theorems use only that the result is a sorted permutation. -/
def sortByAlpha (data : List (DataPoint (Double K))) : List (DataPoint (Double K)) :=
  data.foldr insertByAlpha []

/-- The function `AeroDataTable::loadFromCSV`, lines 29-90. -/
def AeroDataTable.loadFromCSV (stod : List Char → Option K)
    (file : Option (List (List Char))) : Except LoadFailure (AeroDataTable K) :=
  match file with
  | none => .error .failedToOpen
  | some lines =>
    match readLines stod lines true [] with
    | .error e => .error e
    | .ok data => if data.isEmpty then .error .noValidData else .ok ⟨sortByAlpha data⟩

/-- The value of a string of decimal digits. -/
def digitsValue (ds : List Char) : ℕ :=
  ds.foldl (fun n d => 10 * n + (d.toNat - 48)) 0

/-- The decimal exponent that `std::stod` reads at the start of `s`: `e` or `E`, an optional
sign and at least one digit; `0` when there is none. -/
def exponentValue : List Char → ℤ
  | [] => 0
  | c :: r =>
    if c = 'e' ∨ c = 'E' then
      let ds := (if r.head? = some '-' ∨ r.head? = some '+' then r.tail else r).takeWhile
        Char.isDigit
      if ds.isEmpty then 0
      else if r.head? = some '-' then -(digitsValue ds : ℤ)
      else (digitsValue ds : ℤ)
    else 0

/-- The test `std::isspace` in the "C" locale. -/
def isSpaceChar (c : Char) : Bool :=
  c == ' ' || c == '\t' || c == '\n' || c == '\r' || c == Char.ofNat 11 || c == Char.ofNat 12

/-- A model of `std::stod` on decimal notation: skip leading white space, read an optional
sign, digits with an optional fraction, and an optional exponent; what follows is ignored.
The result is `none`, the exception `std::invalid_argument`, when no digit is found.
Hexadecimal notation, `inf` and `nan` are not modelled. -/
def stodDecimal (token : List Char) : Option K :=
  let s0 := token.dropWhile isSpaceChar
  let s1 := if s0.head? = some '-' ∨ s0.head? = some '+' then s0.tail else s0
  let intDigits := s1.takeWhile Char.isDigit
  let s2 := s1.dropWhile Char.isDigit
  let fracDigits := if s2.head? = some '.' then s2.tail.takeWhile Char.isDigit else []
  let s3 := if s2.head? = some '.' then s2.tail.dropWhile Char.isDigit else s2
  if intDigits.isEmpty ∧ fracDigits.isEmpty then none
  else
    let mantissa : K := (digitsValue intDigits : K)
      + (digitsValue fracDigits : K) / 10 ^ fracDigits.length
    let value : K := mantissa * 10 ^ exponentValue s3
    some (if s0.head? = some '-' then -value else value)

/-! ## Scalar force and coefficient functions (`aero.hpp`, not among the sources) -/

/-- Modelled from the spec: the body of `calcLift`, declared in `aerodynamics/aero.hpp`,
which is not among the sources; the spec gives `forceLift(rho, V, S, CL)` as
`0.5·rho·V²·S·CL`. -/
def calcLift (rho V S CL : Double K) : Double K := 0.5 * rho * (V * V) * S * CL

/-- Modelled from the spec: the body of `calcDrag` of `aero.hpp`; the spec gives
`forceDrag(rho, V, S, CD)` as `0.5·rho·V²·S·CD`. -/
def calcDrag (rho V S CD : Double K) : Double K := 0.5 * rho * (V * V) * S * CD

/-- Modelled from the spec: the body of `calcWeight` of `aero.hpp`; the spec gives
`forceWeight(mass, g)` as `mass·g`. -/
def calcWeight (mass g : Double K) : Double K := mass * g

/-- Modelled from the spec: the body of `calcThrust` of `aero.hpp`; the spec gives
`forceThrust(throttle, maxThrust)` as `throttle·maxThrust`. -/
def calcThrust (throttle maxThrust : Double K) : Double K := throttle * maxThrust

/-- Modelled from the spec: the body of the analytic `calcCL` of `aero.hpp`; the spec gives
the linear lift-curve model `CL = CL_alpha * alpha`. -/
def calcCL (alpha CL_alpha : Double K) : Double K := CL_alpha * alpha

/-- Modelled from the spec: the body of the analytic `calcCD` of `aero.hpp`; the spec gives
the parabolic drag polar `CD = CD0 + k * CL²`. -/
def calcCD (CL CD0 k : Double K) : Double K := CD0 + k * (CL * CL)

/-! ## Arithmetic of doubles -/

namespace Double

@[simp] theorem val_add_val (a b : K) : (val a + val b : Double K) = val (a + b) := rfl
@[simp] theorem val_sub_val (a b : K) : (val a - val b : Double K) = val (a - b) := rfl
@[simp] theorem val_mul_val (a b : K) : (val a * val b : Double K) = val (a * b) := rfl
@[simp] theorem val_div_val (a b : K) :
    (val a / val b : Double K) = if b = 0 then undef else val (a / b) := rfl
@[simp] theorem map_val (f : K → K) (a : K) : (val a).map f = val (f a) := rfl
@[simp] theorem abs_val (a : K) : (val a).abs = val |a| := rfl
@[simp] theorem val_lt_val (a b : K) : (val a < val b) ↔ a < b := Iff.rfl
@[simp] theorem val_le_val (a b : K) : (val a ≤ val b) ↔ a ≤ b := Iff.rfl
@[simp] theorem ofScientific_eq (m : ℕ) (s : Bool) (e : ℕ) :
    (OfScientific.ofScientific m s e : Double K) = val (OfScientific.ofScientific m s e) := rfl
@[simp] theorem val_inj_iff (a b : K) : (val a = val b) ↔ a = b :=
  ⟨fun h => by cases h; rfl, fun h => by rw [h]⟩

@[simp] theorem undef_add (a : Double K) : undef + a = undef := rfl
@[simp] theorem add_undef (a : Double K) : a + undef = undef := by cases a <;> rfl
@[simp] theorem undef_sub (a : Double K) : undef - a = undef := rfl
@[simp] theorem sub_undef (a : Double K) : a - undef = undef := by cases a <;> rfl
@[simp] theorem undef_mul (a : Double K) : undef * a = undef := rfl
@[simp] theorem mul_undef (a : Double K) : a * undef = undef := by cases a <;> rfl
@[simp] theorem undef_div (a : Double K) : undef / a = undef := rfl
@[simp] theorem div_undef (a : Double K) : a / undef = undef := by cases a <;> rfl
@[simp] theorem map_undef (f : K → K) : (undef : Double K).map f = undef := rfl
@[simp] theorem abs_undef : (undef : Double K).abs = undef := rfl
@[simp] theorem not_undef_lt (a : Double K) : ¬ (undef < a) := fun h => h
@[simp] theorem not_lt_undef (a : Double K) : ¬ (a < undef) := by
  cases a <;> exact fun h => h
@[simp] theorem not_undef_le (a : Double K) : ¬ (undef ≤ a) := fun h => h
@[simp] theorem not_le_undef (a : Double K) : ¬ (a ≤ undef) := by
  cases a <;> exact fun h => h

end Double

/-- The call `std::max(a, b)` on two real numbers. -/
theorem max_val_val (a b : K) : Double.max (val a) (val b) = val (if a < b then b else a) := by
  rw [Double.max]
  by_cases h : a < b <;> simp [h]

/-- The call `std::max(0.0, v)` on a real number is the larger of `0` and `v`. -/
theorem max_zero_val (v : K) : Double.max 0.0 (val v) = val (max 0 v) := by
  have hz : (0.0 : Double K) = val 0 := by
    simp only [Double.ofScientific_eq, Double.val_inj_iff]
    norm_num
  rw [hz, Double.max]
  by_cases h : (0 : K) < v
  · simp [h, max_eq_right (le_of_lt h)]
  · simp [h, max_eq_left (not_lt.mp h)]

/-! ### The data table on real points -/

namespace AeroDataTable

@[simp] theorem length_ofPoints (ps : List (DataPoint K)) :
    (ofPoints ps).data.length = ps.length := by
  simp [ofPoints]

/-- Reading an index in bounds of a table of real points gives that point. -/
theorem nth_ofPoints (ps : List (DataPoint K)) (i : ℕ) (hi : i < ps.length) :
    (ofPoints ps).nth i = ps[i].lift := by
  simp [nth, ofPoints, hi]

/-- In a strictly ascending list the angles are monotone in the index. -/
theorem alpha_le_of_le (ps : List (DataPoint K))
    (hasc : ps.Pairwise (fun p q => p.alpha < q.alpha)) (i j : ℕ) (hij : i ≤ j)
    (hj : j < ps.length) : ps[i].alpha ≤ ps[j].alpha := by
  rcases Nat.eq_or_lt_of_le hij with h | h
  · subst h
    exact le_refl _
  · exact le_of_lt (List.pairwise_iff_getElem.mp hasc i j (by omega) hj h)

/-- The bracket search on a strictly ascending table of real points: if `alpha` lies in the
bracket `j`, the loop started at an index `i ≤ j` with enough iterations left returns the
linear interpolation on the bracket `j`, whichever bracket it stops at. -/
theorem interpolateLoop_bracket (ps : List (DataPoint K))
    (hasc : ps.Pairwise (fun p q => p.alpha < q.alpha))
    (getValue : DataPoint (Double K) → Double K) (f : DataPoint K → K)
    (hf : ∀ p : DataPoint K, getValue p.lift = val (f p))
    (alpha : K) (j : ℕ) (hj : j + 1 < ps.length)
    (hlo : ps[j].alpha ≤ alpha) (hhi : alpha ≤ ps[j + 1].alpha) :
    ∀ k i : ℕ, i ≤ j → j < i + k →
      (ofPoints ps).interpolateLoop (val alpha) getValue k i
        = some (val (f ps[j] + (alpha - ps[j].alpha) / (ps[j + 1].alpha - ps[j].alpha)
            * (f ps[j + 1] - f ps[j]))) := by
  have hpw := List.pairwise_iff_getElem.mp hasc
  intro k
  induction k with
  | zero =>
    intro i h1 h2
    omega
  | succ k ih =>
    intro i h1 h2
    have hi : i + 1 < ps.length := by omega
    have hlt : ps[i].alpha < ps[i + 1].alpha := hpw i (i + 1) (by omega) hi (by omega)
    have hne : ps[i + 1].alpha - ps[i].alpha ≠ 0 := sub_ne_zero.mpr (ne_of_gt hlt)
    rw [interpolateLoop, nth_ofPoints ps i (by omega), nth_ofPoints ps (i + 1) hi]
    simp only [DataPoint.lift, ge_iff_le, Double.val_le_val, Double.val_sub_val,
      Double.val_div_val, hne, if_false]
    have hfi : getValue ⟨val ps[i].alpha, val ps[i].CL, val ps[i].CD⟩ = val (f ps[i]) :=
      hf ps[i]
    have hfi1 : getValue ⟨val ps[i + 1].alpha, val ps[i + 1].CL, val ps[i + 1].CD⟩
        = val (f ps[i + 1]) := hf ps[i + 1]
    rw [hfi, hfi1]
    simp only [Double.val_sub_val, Double.val_mul_val, Double.val_add_val]
    by_cases hc : ps[i].alpha ≤ alpha ∧ alpha ≤ ps[i + 1].alpha
    · rw [if_pos hc]
      rcases Nat.eq_or_lt_of_le h1 with h | h
      · subst h
        rfl
      · have h3 : ps[i + 1].alpha ≤ ps[j].alpha := alpha_le_of_le ps hasc (i + 1) j h (by omega)
        have h4 : alpha = ps[i + 1].alpha := le_antisymm hc.2 (h3.trans hlo)
        have h5 : ps[j].alpha = ps[i + 1].alpha := le_antisymm (h4 ▸ hlo) h3
        have h6 : j = i + 1 := by
          by_contra hne2
          have := hpw (i + 1) j hi (by omega) (by omega)
          rw [h5] at this
          exact lt_irrefl _ this
        subst h6
        have hlt2 : ps[i + 1].alpha < ps[i + 1 + 1].alpha :=
          hpw (i + 1) (i + 1 + 1) (by omega) hj (by omega)
        rw [h4]
        congr 2
        field_simp
    · rw [if_neg hc]
      have hij : i ≠ j := by
        intro h
        subst h
        exact hc ⟨hlo, hhi⟩
      exact ih (i + 1) (by omega) (by omega)

/-- A table of at least two real points: `front` and `back` are its first and last point. -/
theorem front_ofPoints (ps : List (DataPoint K)) (h : 0 < ps.length) :
    (ofPoints ps).front = ps[0].lift := nth_ofPoints ps 0 h

theorem back_ofPoints (ps : List (DataPoint K)) (h : 0 < ps.length) :
    (ofPoints ps).back = ps[ps.length - 1].lift := by
  rw [back, length_ofPoints]
  exact nth_ofPoints ps (ps.length - 1) (by omega)

theorem isEmpty_ofPoints (ps : List (DataPoint K)) (h : 0 < ps.length) :
    (ofPoints ps).data.isEmpty = false := by
  cases ps with
  | nil => simp at h
  | cons p ps => rfl

/-- Inside a bracket of a strictly ascending table of real points, `interpolate` returns the
linear interpolation on that bracket. -/
theorem interpolate_bracket (ps : List (DataPoint K))
    (hasc : ps.Pairwise (fun p q => p.alpha < q.alpha))
    (getValue : DataPoint (Double K) → Double K) (f : DataPoint K → K)
    (hf : ∀ p : DataPoint K, getValue p.lift = val (f p))
    (alpha : K) (j : ℕ) (hj : j + 1 < ps.length)
    (hlo : ps[j].alpha ≤ alpha) (hhi : alpha ≤ ps[j + 1].alpha) :
    (ofPoints ps).interpolate (val alpha) getValue
      = val (f ps[j] + (alpha - ps[j].alpha) / (ps[j + 1].alpha - ps[j].alpha)
          * (f ps[j + 1] - f ps[j])) := by
  have h0 : 0 < ps.length := by omega
  have hfront : ¬ alpha < ps[0].alpha :=
    not_lt.mpr ((alpha_le_of_le ps hasc 0 j (by omega) (by omega)).trans hlo)
  have hback : ¬ ps[ps.length - 1].alpha < alpha :=
    not_lt.mpr (hhi.trans (alpha_le_of_le ps hasc (j + 1) (ps.length - 1) (by omega) (by omega)))
  have hlen : ps.length ≠ 1 := by omega
  rw [interpolate, isEmpty_ofPoints ps h0, front_ofPoints ps h0, back_ofPoints ps h0,
    length_ofPoints]
  simp only [Bool.false_eq_true, if_false, hlen, DataPoint.lift, Double.val_lt_val, hfront,
    gt_iff_lt, hback]
  rw [interpolateLoop_bracket ps hasc getValue f hf alpha j hj hlo hhi (ps.length - 1) 0
    (by omega) (by omega)]

/-- Inside the sampled range neither `getCL` nor `getCD` alters the interpolated value. -/
theorem getCL_inside (ps : List (DataPoint K)) (alpha : K) (h0 : 0 < ps.length)
    (hlo : ps[0].alpha ≤ alpha) (hhi : alpha ≤ ps[ps.length - 1].alpha) :
    (ofPoints ps).getCL (val alpha) = (ofPoints ps).interpolate (val alpha) (fun p => p.CL) := by
  rw [getCL, front_ofPoints ps h0, back_ofPoints ps h0]
  simp [DataPoint.lift, not_lt.mpr hlo, not_lt.mpr hhi]

theorem getCD_inside (ps : List (DataPoint K)) (alpha : K) (h0 : 0 < ps.length)
    (hlo : ps[0].alpha ≤ alpha) (hhi : alpha ≤ ps[ps.length - 1].alpha) :
    (ofPoints ps).getCD (val alpha) = (ofPoints ps).interpolate (val alpha) (fun p => p.CD) := by
  rw [getCD, front_ofPoints ps h0, back_ofPoints ps h0]
  simp [DataPoint.lift, not_lt.mpr hlo, not_lt.mpr hhi]

/-- Below the first sample of a strictly ascending table of at least two real points,
`interpolate` extrapolates with the slope of the first two samples. -/
theorem interpolate_below (ps : List (DataPoint K))
    (hasc : ps.Pairwise (fun p q => p.alpha < q.alpha)) (h2 : 2 ≤ ps.length)
    (getValue : DataPoint (Double K) → Double K) (f : DataPoint K → K)
    (hf : ∀ p : DataPoint K, getValue p.lift = val (f p))
    (alpha : K) (hlt : alpha < ps[0].alpha) :
    (ofPoints ps).interpolate (val alpha) getValue
      = val (f ps[0] + (f ps[1] - f ps[0]) / (ps[1].alpha - ps[0].alpha)
          * (alpha - ps[0].alpha)) := by
  have h0 : 0 < ps.length := by omega
  have hlen : ps.length ≠ 1 := by omega
  have h01 : ps[0].alpha < ps[1].alpha :=
    List.pairwise_iff_getElem.mp hasc 0 1 (by omega) (by omega) (by omega)
  have hne : ps[1].alpha - ps[0].alpha ≠ 0 := sub_ne_zero.mpr (ne_of_gt h01)
  rw [interpolate, isEmpty_ofPoints ps h0, front_ofPoints ps h0, nth_ofPoints ps 0 h0,
    nth_ofPoints ps 1 (by omega), length_ofPoints, hf, hf]
  simp [hlen, DataPoint.lift, hlt, hne]

/-- Above the last sample of a strictly ascending table of at least two real points,
`interpolate` extrapolates with the slope of the last two samples. -/
theorem interpolate_above (ps : List (DataPoint K))
    (hasc : ps.Pairwise (fun p q => p.alpha < q.alpha)) (h2 : 2 ≤ ps.length)
    (getValue : DataPoint (Double K) → Double K) (f : DataPoint K → K)
    (hf : ∀ p : DataPoint K, getValue p.lift = val (f p))
    (alpha : K) (hgt : ps[ps.length - 1].alpha < alpha) :
    (ofPoints ps).interpolate (val alpha) getValue
      = val (f ps[ps.length - 1]
          + (f ps[ps.length - 1] - f ps[ps.length - 2])
            / (ps[ps.length - 1].alpha - ps[ps.length - 2].alpha)
          * (alpha - ps[ps.length - 1].alpha)) := by
  have h0 : 0 < ps.length := by omega
  have hlen : ps.length ≠ 1 := by omega
  have hlast : ps[ps.length - 2].alpha < ps[ps.length - 1].alpha :=
    List.pairwise_iff_getElem.mp hasc (ps.length - 2) (ps.length - 1) (by omega) (by omega)
      (by omega)
  have hne : ps[ps.length - 1].alpha - ps[ps.length - 2].alpha ≠ 0 :=
    sub_ne_zero.mpr (ne_of_gt hlast)
  have hfront : ¬ alpha < ps[0].alpha :=
    not_lt.mpr ((alpha_le_of_le ps hasc 0 (ps.length - 1) (by omega) (by omega)).trans
      (le_of_lt hgt))
  simp only [interpolate, isEmpty_ofPoints ps h0, front_ofPoints ps h0, back_ofPoints ps h0,
    length_ofPoints, nth_ofPoints ps (ps.length - 1) (by omega),
    nth_ofPoints ps (ps.length - 2) (by omega), hf]
  simp [hlen, DataPoint.lift, hfront, hgt, hne]

/-- The bracket search falls out of the loop exactly when no index it visits satisfies the
loop condition. -/
theorem interpolateLoop_eq_none_iff (t : AeroDataTable K) (alpha : Double K)
    (getValue : DataPoint (Double K) → Double K) :
    ∀ k i : ℕ, t.interpolateLoop alpha getValue k i = none ↔
      ∀ j : ℕ, i ≤ j → j < i + k →
        ¬ (alpha ≥ (t.nth j).alpha ∧ alpha ≤ (t.nth (j + 1)).alpha) := by
  intro k
  induction k with
  | zero =>
    intro i
    simp only [interpolateLoop, true_iff]
    intro j h1 h2
    omega
  | succ k ih =>
    intro i
    rw [interpolateLoop]
    by_cases hc : alpha ≥ (t.nth i).alpha ∧ alpha ≤ (t.nth (i + 1)).alpha
    · rw [if_pos hc]
      constructor
      · intro h
        exact absurd h (by simp)
      · intro h
        exact absurd hc (h i (le_refl i) (by omega))
    · rw [if_neg hc, ih (i + 1)]
      constructor
      · intro h j h1 h2
        rcases Nat.eq_or_lt_of_le h1 with h3 | h3
        · subst h3
          exact hc
        · exact h j h3 (by omega)
      · intro h j h1 h2
        exact h j (by omega) (by omega)

/-- The bracket search returns the interpolation on the first index that satisfies the loop
condition. -/
theorem interpolateLoop_first (t : AeroDataTable K) (alpha : Double K)
    (getValue : DataPoint (Double K) → Double K) (j : ℕ)
    (hj : alpha ≥ (t.nth j).alpha ∧ alpha ≤ (t.nth (j + 1)).alpha) :
    ∀ k i : ℕ, i ≤ j → j < i + k →
      (∀ m : ℕ, i ≤ m → m < j →
        ¬ (alpha ≥ (t.nth m).alpha ∧ alpha ≤ (t.nth (m + 1)).alpha)) →
      t.interpolateLoop alpha getValue k i
        = some (getValue (t.nth j)
            + (alpha - (t.nth j).alpha) / ((t.nth (j + 1)).alpha - (t.nth j).alpha)
              * (getValue (t.nth (j + 1)) - getValue (t.nth j))) := by
  intro k
  induction k with
  | zero =>
    intro i h1 h2
    omega
  | succ k ih =>
    intro i h1 h2 hmin
    rw [interpolateLoop]
    rcases Nat.eq_or_lt_of_le h1 with h3 | h3
    · subst h3
      rw [if_pos hj]
    · rw [if_neg (hmin i (le_refl i) h3)]
      exact ih (i + 1) h3 (by omega) (fun m hm1 hm2 => hmin m (by omega) hm2)

/-- Reading an index out of bounds gives the point with three undefined fields. -/
theorem nth_of_length_le (t : AeroDataTable K) (i : ℕ) (hi : t.data.length ≤ i) :
    t.nth i = ⟨undef, undef, undef⟩ := by
  rw [nth]
  exact List.getD_eq_default _ _ hi

/-- On a table of real points the loop condition at an index in bounds is the condition on
the real angles. -/
theorem loop_condition_iff (ps : List (DataPoint K)) (alpha : K) (j : ℕ)
    (hj : j + 1 < ps.length) :
    (val alpha ≥ ((ofPoints ps).nth j).alpha ∧ val alpha ≤ ((ofPoints ps).nth (j + 1)).alpha)
      ↔ (ps[j].alpha ≤ alpha ∧ alpha ≤ ps[j + 1].alpha) := by
  rw [nth_ofPoints ps j (by omega), nth_ofPoints ps (j + 1) hj]
  simp [DataPoint.lift]

/-- The loop condition fails at every index whose successor is out of bounds. -/
theorem loop_condition_in_bounds (ps : List (DataPoint K)) (alpha : Double K) (j : ℕ)
    (hc : alpha ≥ ((ofPoints ps).nth j).alpha ∧ alpha ≤ ((ofPoints ps).nth (j + 1)).alpha) :
    j + 1 < ps.length := by
  by_contra h
  have h1 := nth_of_length_le (ofPoints ps) (j + 1) (by simp; omega)
  rw [h1] at hc
  exact Double.not_le_undef alpha hc.2

/-- A discrete intermediate-value property: a list of real points whose first angle is at
most `alpha` and whose `m`-th angle is at least `alpha` has two neighbours that bracket
`alpha`, sorted or not. -/
theorem exists_bracket (ps : List (DataPoint K)) (alpha : K) :
    ∀ (m : ℕ) (hm : m < ps.length), 1 ≤ m → ps[0].alpha ≤ alpha → alpha ≤ ps[m].alpha →
      ∃ (j : ℕ) (_ : j + 1 < ps.length), ps[j].alpha ≤ alpha ∧ alpha ≤ ps[j + 1].alpha := by
  intro m
  induction m with
  | zero =>
    intro hm h1
    omega
  | succ m ih =>
    intro hm h1 hlo hhi
    by_cases hmid : alpha ≤ ps[m].alpha
    · rcases Nat.eq_zero_or_pos m with h0 | h0
      · subst h0
        exact ⟨0, hm, hlo, hhi⟩
      · exact ih (by omega) h0 hlo hmid
    · exact ⟨m, hm, le_of_lt (not_le.mp hmid), hhi⟩

/-- Inside the range of a table of at least two real points (sorted or not) the bracket
search stops at the first index `i` whose neighbours bracket `alpha`, and `interpolate`
returns the interpolation on that bracket. -/
theorem first_bracket (ps : List (DataPoint K)) (h2 : 2 ≤ ps.length) (alpha : K)
    (hlo : ps[0].alpha ≤ alpha) (hhi : alpha ≤ ps[ps.length - 1].alpha)
    (getValue : DataPoint (Double K) → Double K) :
    ∃ (i : ℕ) (_ : i + 1 < ps.length),
      ps[i].alpha ≤ alpha ∧ alpha ≤ ps[i + 1].alpha ∧
      (∀ (j : ℕ) (_ : j < i), ¬ (ps[j].alpha ≤ alpha ∧ alpha ≤ ps[j + 1].alpha)) ∧
      (ofPoints ps).interpolateLoop (val alpha) getValue (ps.length - 1) 0
        = some (getValue ps[i].lift
            + (val alpha - val ps[i].alpha) / (val ps[i + 1].alpha - val ps[i].alpha)
              * (getValue ps[i + 1].lift - getValue ps[i].lift)) ∧
      (ofPoints ps).interpolate (val alpha) getValue
        = getValue ps[i].lift
            + (val alpha - val ps[i].alpha) / (val ps[i + 1].alpha - val ps[i].alpha)
              * (getValue ps[i + 1].lift - getValue ps[i].lift) := by
  obtain ⟨j0, hj0, hb⟩ := exists_bracket ps alpha (ps.length - 1) (by omega) (by omega) hlo hhi
  have hex : ∃ j : ℕ, val alpha ≥ ((ofPoints ps).nth j).alpha
      ∧ val alpha ≤ ((ofPoints ps).nth (j + 1)).alpha :=
    ⟨j0, (loop_condition_iff ps alpha j0 hj0).mpr hb⟩
  have hc := Nat.find_spec hex
  have hi : Nat.find hex + 1 < ps.length := loop_condition_in_bounds ps (val alpha) _ hc
  have hloop := interpolateLoop_first (ofPoints ps) (val alpha) getValue (Nat.find hex) hc
    (ps.length - 1) 0 (Nat.zero_le _) (by omega) (fun m _ hm => Nat.find_min hex hm)
  rw [nth_ofPoints ps _ (by omega), nth_ofPoints ps _ hi] at hloop
  have h0 : 0 < ps.length := by omega
  have hlen : ps.length ≠ 1 := by omega
  refine ⟨Nat.find hex, hi, ((loop_condition_iff ps alpha _ hi).mp hc).1,
    ((loop_condition_iff ps alpha _ hi).mp hc).2, ?_, hloop, ?_⟩
  · intro j hj hbj
    exact Nat.find_min hex hj ((loop_condition_iff ps alpha j (by omega)).mpr hbj)
  · rw [interpolate, isEmpty_ofPoints ps h0, front_ofPoints ps h0, back_ofPoints ps h0,
      length_ofPoints]
    simp only [Bool.false_eq_true, if_false, hlen, DataPoint.lift, Double.val_lt_val,
      not_lt.mpr hlo, gt_iff_lt, not_lt.mpr hhi]
    rw [hloop]
    rfl

/-- Below the first sample of a table of at least two real points (sorted or not),
`interpolate` evaluates the extrapolation on the first two samples. -/
theorem interpolate_below_raw (ps : List (DataPoint K)) (h2 : 2 ≤ ps.length)
    (getValue : DataPoint (Double K) → Double K) (alpha : K) (hlt : alpha < ps[0].alpha) :
    (ofPoints ps).interpolate (val alpha) getValue
      = getValue ps[0].lift
          + (getValue ps[1].lift - getValue ps[0].lift) / (val ps[1].alpha - val ps[0].alpha)
            * (val alpha - val ps[0].alpha) := by
  have h0 : 0 < ps.length := by omega
  have hlen : ps.length ≠ 1 := by omega
  simp only [interpolate, isEmpty_ofPoints ps h0, front_ofPoints ps h0, nth_ofPoints ps 0 h0,
    nth_ofPoints ps 1 (by omega), length_ofPoints]
  simp [hlen, DataPoint.lift, hlt]

/-- Above the last sample of a table of at least two real points (sorted or not), and not
below the first, `interpolate` evaluates the extrapolation on the last two samples. -/
theorem interpolate_above_raw (ps : List (DataPoint K)) (h2 : 2 ≤ ps.length)
    (getValue : DataPoint (Double K) → Double K) (alpha : K)
    (hfront : ¬ alpha < ps[0].alpha) (hgt : ps[ps.length - 1].alpha < alpha) :
    (ofPoints ps).interpolate (val alpha) getValue
      = getValue ps[ps.length - 1].lift
          + (getValue ps[ps.length - 1].lift - getValue ps[ps.length - 2].lift)
              / (val ps[ps.length - 1].alpha - val ps[ps.length - 2].alpha)
            * (val alpha - val ps[ps.length - 1].alpha) := by
  have h0 : 0 < ps.length := by omega
  have hlen : ps.length ≠ 1 := by omega
  simp only [interpolate, isEmpty_ofPoints ps h0, front_ofPoints ps h0, back_ofPoints ps h0,
    length_ofPoints, nth_ofPoints ps (ps.length - 1) (by omega),
    nth_ofPoints ps (ps.length - 2) (by omega)]
  simp [hlen, DataPoint.lift, hfront, hgt]

/-- On a table of real points `interpolate` is undefined only if two neighbours share their
angle: every divisor it forms is a difference of two neighbouring angles. -/
theorem interpolate_undef (ps : List (DataPoint K)) (alpha : K)
    (getValue : DataPoint (Double K) → Double K) (f : DataPoint K → K)
    (hf : ∀ p : DataPoint K, getValue p.lift = val (f p))
    (hu : (ofPoints ps).interpolate (val alpha) getValue = undef) :
    ∃ (i : ℕ) (_ : i + 1 < ps.length), ps[i].alpha = ps[i + 1].alpha := by
  rcases Nat.lt_or_ge ps.length 2 with hlen | h2
  · exfalso
    match ps, hlen with
    | [], _ =>
      simp [interpolate, ofPoints] at hu
    | [p], _ =>
      have h := hf p
      simp [interpolate, ofPoints, front, nth, h] at hu
  · by_cases hlt : alpha < ps[0].alpha
    · rw [interpolate_below_raw ps h2 getValue alpha hlt, hf, hf] at hu
      by_cases hz : ps[1].alpha - ps[0].alpha = 0
      · exact ⟨0, by omega, (sub_eq_zero.mp hz).symm⟩
      · simp [hz] at hu
    · by_cases hgt : ps[ps.length - 1].alpha < alpha
      · rw [interpolate_above_raw ps h2 getValue alpha hlt hgt, hf, hf] at hu
        by_cases hz : ps[ps.length - 1].alpha - ps[ps.length - 2].alpha = 0
        · refine ⟨ps.length - 2, by omega, ?_⟩
          have h3 : ps[ps.length - 2 + 1] = ps[ps.length - 1] := by
            congr 1
            omega
          rw [h3]
          exact (sub_eq_zero.mp hz).symm
        · simp [hz] at hu
      · obtain ⟨i, hi, _, _, _, _, h7⟩ :=
          first_bracket ps h2 alpha (not_lt.mp hlt) (not_lt.mp hgt) getValue
        rw [h7, hf, hf] at hu
        by_cases hz : ps[i + 1].alpha - ps[i].alpha = 0
        · exact ⟨i, hi, (sub_eq_zero.mp hz).symm⟩
        · simp [hz] at hu

/-- Below the first sample `getCD` returns the first sample's drag coefficient. -/
theorem getCD_below (ps : List (DataPoint K)) (h0 : 0 < ps.length) (alpha : K)
    (h : alpha < ps[0].alpha) : (ofPoints ps).getCD (val alpha) = val ps[0].CD := by
  simp only [getCD, front_ofPoints ps h0, isEmpty_ofPoints ps h0]
  simp [DataPoint.lift, h]

/-- Above the last sample, and not below the first, `getCD` returns the last sample's drag
coefficient. -/
theorem getCD_above (ps : List (DataPoint K)) (h0 : 0 < ps.length) (alpha : K)
    (h1 : ¬ alpha < ps[0].alpha) (h : ps[ps.length - 1].alpha < alpha) :
    (ofPoints ps).getCD (val alpha) = val ps[ps.length - 1].CD := by
  simp only [getCD, front_ofPoints ps h0, back_ofPoints ps h0, isEmpty_ofPoints ps h0]
  simp [DataPoint.lift, h, h1]

/-- On a one-point table `interpolate` returns the point's value. -/
theorem interpolate_single (p : DataPoint K) (q : Double K)
    (getValue : DataPoint (Double K) → Double K) :
    (ofPoints [p]).interpolate q getValue = getValue p.lift := by
  simp [interpolate, ofPoints, front, nth]

/-- Inside a bracket of a strictly ascending table `getCD` lies between the drag
coefficients of the two bracketing samples. -/
theorem getCD_bracket_between (ps : List (DataPoint K))
    (hasc : ps.Pairwise (fun p q => p.alpha < q.alpha)) (alpha : K)
    (i : ℕ) (hi : i + 1 < ps.length) (hlo : ps[i].alpha ≤ alpha)
    (hhi : alpha ≤ ps[i + 1].alpha) :
    ∃ v : K, (ofPoints ps).getCD (val alpha) = val v ∧
      min ps[i].CD ps[i + 1].CD ≤ v ∧ v ≤ max ps[i].CD ps[i + 1].CD := by
  have h0 : 0 < ps.length := by omega
  have hfront : ps[0].alpha ≤ alpha :=
    (alpha_le_of_le ps hasc 0 i (by omega) (by omega)).trans hlo
  have hback : alpha ≤ ps[ps.length - 1].alpha :=
    hhi.trans (alpha_le_of_le ps hasc (i + 1) (ps.length - 1) (by omega) (by omega))
  have hlt : ps[i].alpha < ps[i + 1].alpha :=
    List.pairwise_iff_getElem.mp hasc i (i + 1) (by omega) hi (by omega)
  have hd : 0 < ps[i + 1].alpha - ps[i].alpha := sub_pos.mpr hlt
  have ht0 : 0 ≤ (alpha - ps[i].alpha) / (ps[i + 1].alpha - ps[i].alpha) :=
    div_nonneg (sub_nonneg.mpr hlo) hd.le
  have ht1 : (alpha - ps[i].alpha) / (ps[i + 1].alpha - ps[i].alpha) ≤ 1 := by
    rw [div_le_one hd]
    linarith
  refine ⟨ps[i].CD + (alpha - ps[i].alpha) / (ps[i + 1].alpha - ps[i].alpha)
    * (ps[i + 1].CD - ps[i].CD), ?_, ?_, ?_⟩
  · rw [getCD_inside ps alpha h0 hfront hback]
    exact interpolate_bracket ps hasc _ (fun p => p.CD) (fun _ => rfl) alpha i hi hlo hhi
  · rcases le_total ps[i].CD ps[i + 1].CD with h | h
    · rw [min_eq_left h]
      have := mul_nonneg ht0 (sub_nonneg.mpr h)
      linarith
    · rw [min_eq_right h]
      have := mul_le_mul_of_nonneg_right ht1 (sub_nonneg.mpr h)
      linarith
  · rcases le_total ps[i].CD ps[i + 1].CD with h | h
    · rw [max_eq_right h]
      have := mul_le_mul_of_nonneg_right ht1 (sub_nonneg.mpr h)
      linarith
    · rw [max_eq_left h]
      have := mul_nonneg ht0 (sub_nonneg.mpr h)
      linarith

end AeroDataTable

/-! ### The loader -/

/-- The call `std::getline(ss, token, ',')` fails exactly when nothing is left. -/
theorem getToken_eq_none_iff (cs : List Char) : getToken cs = none ↔ cs = [] := by
  cases cs with
  | nil => simp [getToken]
  | cons c cs =>
    simp only [getToken, reduceCtorEq, iff_false]
    split_ifs
    · simp
    · cases getToken cs <;> simp

/-- A successful call reads the first field and leaves the remaining fields. -/
theorem tokens_of_getToken (cs token rest : List Char)
    (h : getToken cs = some (token, rest)) : tokens cs = token :: tokens rest := by
  induction cs generalizing token rest with
  | nil => simp [getToken] at h
  | cons c cs ih =>
    rw [getToken] at h
    rw [tokens]
    by_cases hc : c = ','
    · simp only [hc, if_true, Option.some.injEq, Prod.mk.injEq] at h
      rw [if_pos hc, ← h.1, ← h.2]
    · rw [if_neg hc] at h
      rw [if_neg hc]
      cases hg : getToken cs with
      | none =>
        rw [hg] at h
        simp only [Option.some.injEq, Prod.mk.injEq] at h
        rw [(getToken_eq_none_iff cs).mp hg, ← h.1, ← h.2]
        simp [tokens]
      | some tr =>
        obtain ⟨t, r⟩ := tr
        rw [hg] at h
        simp only [Option.some.injEq, Prod.mk.injEq] at h
        rw [ih t r hg, ← h.1, ← h.2]

/-- No field is left exactly when nothing is left. -/
theorem tokens_eq_nil_iff (cs : List Char) : tokens cs = [] ↔ cs = [] := by
  cases cs with
  | nil => simp [tokens]
  | cons c cs =>
    simp only [tokens, reduceCtorEq, iff_false]
    split_ifs
    · simp
    · cases tokens cs <;> simp

/-- The seven ways through the parser, in terms of the fields of the line: the parser
converts the fields one after the other and stops at the first that is missing (`continue`)
or does not convert (exception). -/
theorem parseLine_cases (stod : List Char → Option K) (line : List Char) :
    (tokens line = [] ∧ parseLine stod line = .skipped) ∨
    (∃ t1 rest, tokens line = t1 :: rest ∧ stod t1 = none ∧ parseLine stod line = .threw) ∨
    (∃ t1 a, tokens line = [t1] ∧ stod t1 = some a ∧ parseLine stod line = .skipped) ∨
    (∃ t1 a t2 rest, tokens line = t1 :: t2 :: rest ∧ stod t1 = some a ∧ stod t2 = none ∧
      parseLine stod line = .threw) ∨
    (∃ t1 a t2 cl, tokens line = [t1, t2] ∧ stod t1 = some a ∧ stod t2 = some cl ∧
      parseLine stod line = .skipped) ∨
    (∃ t1 a t2 cl t3 rest, tokens line = t1 :: t2 :: t3 :: rest ∧ stod t1 = some a ∧
      stod t2 = some cl ∧ stod t3 = none ∧ parseLine stod line = .threw) ∨
    (∃ t1 a t2 cl t3 cd rest, tokens line = t1 :: t2 :: t3 :: rest ∧ stod t1 = some a ∧
      stod t2 = some cl ∧ stod t3 = some cd ∧
      parseLine stod line = .point ⟨val a * M_PI / 180.0, val cl, val cd⟩) := by
  cases h1 : getToken line with
  | none =>
    left
    exact ⟨(tokens_eq_nil_iff line).mpr ((getToken_eq_none_iff line).mp h1),
      by simp [parseLine, h1]⟩
  | some tr1 =>
    obtain ⟨t1, r1⟩ := tr1
    have ht1 := tokens_of_getToken line t1 r1 h1
    right
    cases hs1 : stod t1 with
    | none =>
      left
      exact ⟨t1, _, ht1, hs1, by simp [parseLine, h1, hs1]⟩
    | some a =>
      right
      cases h2 : getToken r1 with
      | none =>
        left
        refine ⟨t1, a, ?_, hs1, by simp [parseLine, h1, hs1, h2]⟩
        rw [ht1, (tokens_eq_nil_iff r1).mpr ((getToken_eq_none_iff r1).mp h2)]
      | some tr2 =>
        obtain ⟨t2, r2⟩ := tr2
        have ht2 := tokens_of_getToken r1 t2 r2 h2
        right
        cases hs2 : stod t2 with
        | none =>
          left
          exact ⟨t1, a, t2, _, by rw [ht1, ht2], hs1, hs2,
            by simp [parseLine, h1, hs1, h2, hs2]⟩
        | some cl =>
          right
          cases h3 : getToken r2 with
          | none =>
            left
            refine ⟨t1, a, t2, cl, ?_, hs1, hs2, by simp [parseLine, h1, hs1, h2, hs2, h3]⟩
            rw [ht1, ht2, (tokens_eq_nil_iff r2).mpr ((getToken_eq_none_iff r2).mp h3)]
          | some tr3 =>
            obtain ⟨t3, r3⟩ := tr3
            have ht3 := tokens_of_getToken r2 t3 r3 h3
            right
            cases hs3 : stod t3 with
            | none =>
              left
              exact ⟨t1, a, t2, cl, t3, _, by rw [ht1, ht2, ht3], hs1, hs2, hs3,
                by simp [parseLine, h1, hs1, h2, hs2, h3, hs3]⟩
            | some cd =>
              right
              exact ⟨t1, a, t2, cl, t3, cd, _, by rw [ht1, ht2, ht3], hs1, hs2, hs3,
                by simp only [parseLine, h1, hs1, h2, hs2, h3, hs3]⟩

theorem dataLines_blank (line : List Char) (rest : List (List Char)) (firstLine : Bool)
    (hb : isBlankLine line = true) :
    dataLines (line :: rest) firstLine = dataLines rest firstLine := by
  rw [dataLines, if_pos hb]

theorem dataLines_header (line : List Char) (rest : List (List Char)) (firstLine : Bool)
    (hb : ¬ isBlankLine line = true) (hh : (firstLine && startsWithLetter line) = true) :
    dataLines (line :: rest) firstLine = dataLines rest false := by
  rw [dataLines, if_neg hb, if_pos hh]

theorem dataLines_data (line : List Char) (rest : List (List Char)) (firstLine : Bool)
    (hb : ¬ isBlankLine line = true) (hh : ¬ (firstLine && startsWithLetter line) = true) :
    dataLines (line :: rest) firstLine = line :: dataLines rest false := by
  rw [dataLines, if_neg hb, if_neg hh]

theorem parsedRows_cons_point (stod : List Char → Option K) (line : List Char)
    (rest : List (List Char)) (p : DataPoint (Double K))
    (hp : parseLine stod line = .point p) :
    parsedRows stod (line :: rest) = p :: parsedRows stod rest := by
  simp only [parsedRows, List.filterMap_cons, hp]

theorem parsedRows_cons_skipped (stod : List Char → Option K) (line : List Char)
    (rest : List (List Char)) (hp : parseLine stod line = .skipped) :
    parsedRows stod (line :: rest) = parsedRows stod rest := by
  simp only [parsedRows, List.filterMap_cons, hp]

/-- When no line handed to the parser makes `std::stod` throw, the loop ends with the
points of those lines appended, in order, to the points it started with. -/
theorem readLines_ok (stod : List Char → Option K) :
    ∀ (lines : List (List Char)) (firstLine : Bool) (data : List (DataPoint (Double K))),
      (∀ line ∈ dataLines lines firstLine, parseLine stod line ≠ .threw) →
      readLines stod lines firstLine data
        = .ok (data ++ parsedRows stod (dataLines lines firstLine)) := by
  intro lines
  induction lines with
  | nil =>
    intro firstLine data _
    simp [readLines, dataLines, parsedRows]
  | cons line rest ih =>
    intro firstLine data h
    rw [readLines]
    by_cases hb : isBlankLine line = true
    · rw [dataLines_blank line rest firstLine hb] at h ⊢
      rw [if_pos hb]
      exact ih firstLine data h
    · rw [if_neg hb]
      by_cases hh : (firstLine && startsWithLetter line) = true
      · rw [dataLines_header line rest firstLine hb hh] at h ⊢
        rw [if_pos hh]
        exact ih false data h
      · rw [dataLines_data line rest firstLine hb hh] at h ⊢
        rw [if_neg hh]
        have hrest : ∀ l ∈ dataLines rest false, parseLine stod l ≠ .threw :=
          fun l hl => h l (List.mem_cons_of_mem _ hl)
        have hline := h line (List.mem_cons_self _ _)
        cases hp : parseLine stod line with
        | skipped =>
          rw [parsedRows_cons_skipped stod line _ hp]
          exact ih false data hrest
        | threw => exact absurd hp hline
        | point p =>
          rw [parsedRows_cons_point stod line _ p hp]
          simp only [ih false (data ++ [p]) hrest, List.append_assoc, List.singleton_append]

/-- When some line handed to the parser makes `std::stod` throw, the loop is left by that
exception. -/
theorem readLines_error (stod : List Char → Option K) :
    ∀ (lines : List (List Char)) (firstLine : Bool) (data : List (DataPoint (Double K))),
      (∃ line ∈ dataLines lines firstLine, parseLine stod line = .threw) →
      readLines stod lines firstLine data = .error .stodFailed := by
  intro lines
  induction lines with
  | nil =>
    intro firstLine data h
    simp [dataLines] at h
  | cons line rest ih =>
    intro firstLine data h
    rw [readLines]
    by_cases hb : isBlankLine line = true
    · rw [dataLines_blank line rest firstLine hb] at h
      rw [if_pos hb]
      exact ih firstLine data h
    · rw [if_neg hb]
      by_cases hh : (firstLine && startsWithLetter line) = true
      · rw [dataLines_header line rest firstLine hb hh] at h
        rw [if_pos hh]
        exact ih false data h
      · rw [dataLines_data line rest firstLine hb hh] at h
        rw [if_neg hh]
        cases hp : parseLine stod line with
        | threw => rfl
        | skipped =>
          obtain ⟨l, hl, hlt⟩ := h
          rcases List.mem_cons.mp hl with h1 | h1
          · rw [h1, hp] at hlt
            exact absurd hlt (by simp)
          · exact ih false data ⟨l, h1, hlt⟩
        | point p =>
          obtain ⟨l, hl, hlt⟩ := h
          rcases List.mem_cons.mp hl with h1 | h1
          · rw [h1, hp] at hlt
            exact absurd hlt (by simp)
          · exact ih false (data ++ [p]) ⟨l, h1, hlt⟩

/-- Insertion keeps the points. -/
theorem insertByAlpha_perm (p : DataPoint (Double K)) (l : List (DataPoint (Double K))) :
    (insertByAlpha p l).Perm (p :: l) := by
  induction l with
  | nil => exact List.Perm.refl _
  | cons q qs ih =>
    rw [insertByAlpha]
    split_ifs
    · exact List.Perm.refl _
    · exact (List.Perm.cons q ih).trans (List.Perm.swap p q qs)

/-- The sort returns a permutation of its input. -/
theorem sortByAlpha_perm (l : List (DataPoint (Double K))) : (sortByAlpha l).Perm l := by
  induction l with
  | nil => exact List.Perm.refl _
  | cons q qs ih =>
    have h : sortByAlpha (q :: qs) = insertByAlpha q (sortByAlpha qs) := rfl
    rw [h]
    exact (insertByAlpha_perm q _).trans (List.Perm.cons q ih)

/-- Insertion into a list sorted by `alpha` keeps it sorted, when all the angles are real
numbers. -/
theorem insertByAlpha_sorted (p : DataPoint (Double K)) (l : List (DataPoint (Double K)))
    (hp : ∃ a : K, p.alpha = val a) (hl : ∀ q ∈ l, ∃ b : K, q.alpha = val b)
    (hs : l.Pairwise (fun x y => x.alpha ≤ y.alpha)) :
    (insertByAlpha p l).Pairwise (fun x y => x.alpha ≤ y.alpha) := by
  obtain ⟨a, ha⟩ := hp
  induction l with
  | nil => simp [insertByAlpha]
  | cons q qs ih =>
    obtain ⟨b, hb⟩ := hl q (List.mem_cons_self _ _)
    have hqs : ∀ r ∈ qs, ∃ c : K, r.alpha = val c :=
      fun r hr => hl r (List.mem_cons_of_mem _ hr)
    have hsq := List.pairwise_cons.mp hs
    rw [insertByAlpha]
    by_cases hlt : p.alpha < q.alpha
    · rw [if_pos hlt]
      refine List.pairwise_cons.mpr ⟨?_, hs⟩
      intro r hr
      have hab : a < b := by
        rw [ha, hb] at hlt
        exact hlt
      rcases List.mem_cons.mp hr with h1 | h1
      · rw [h1, ha, hb]
        exact le_of_lt hab
      · obtain ⟨c, hc⟩ := hqs r h1
        have hqr := hsq.1 r h1
        rw [hb, hc] at hqr
        rw [ha, hc]
        exact le_of_lt (lt_of_lt_of_le hab hqr)
    · rw [if_neg hlt]
      refine List.pairwise_cons.mpr ⟨?_, ih hqs hsq.2⟩
      intro r hr
      rcases List.mem_cons.mp ((insertByAlpha_perm p qs).mem_iff.mp hr) with h1 | h1
      · rw [h1, ha, hb]
        rw [ha, hb] at hlt
        exact not_lt.mp hlt
      · exact hsq.1 r h1

/-- The sort returns a list sorted by `alpha`, when all the angles are real numbers. -/
theorem sortByAlpha_sorted (l : List (DataPoint (Double K)))
    (hl : ∀ q ∈ l, ∃ b : K, q.alpha = val b) :
    (sortByAlpha l).Pairwise (fun x y => x.alpha ≤ y.alpha) := by
  induction l with
  | nil => simp [sortByAlpha]
  | cons q qs ih =>
    have h : sortByAlpha (q :: qs) = insertByAlpha q (sortByAlpha qs) := rfl
    rw [h]
    have hqs : ∀ r ∈ qs, ∃ c : K, r.alpha = val c :=
      fun r hr => hl r (List.mem_cons_of_mem _ hr)
    exact insertByAlpha_sorted q _ (hl q (List.mem_cons_self _ _))
      (fun r hr => hqs r ((sortByAlpha_perm qs).mem_iff.mp hr)) (ih hqs)

/-- The parser is left by the exception exactly when one of the first three fields does not
convert. -/
theorem parseLine_threw_iff (stod : List Char → Option K) (line : List Char) :
    parseLine stod line = .threw ↔ ∃ t ∈ (tokens line).take 3, stod t = none := by
  rcases parseLine_cases stod line with h | h | h | h | h | h | h
  · obtain ⟨ht, hp⟩ := h
    simp [ht, hp]
  · obtain ⟨t1, rest, ht, h1, hp⟩ := h
    simp only [ht, hp, true_iff]
    exact ⟨t1, by simp, h1⟩
  · obtain ⟨t1, a, ht, h1, hp⟩ := h
    simp [ht, hp, h1]
  · obtain ⟨t1, a, t2, rest, ht, h1, h2, hp⟩ := h
    simp only [ht, hp, true_iff]
    exact ⟨t2, by simp, h2⟩
  · obtain ⟨t1, a, t2, cl, ht, h1, h2, hp⟩ := h
    simp [ht, hp, h1, h2]
  · obtain ⟨t1, a, t2, cl, t3, rest, ht, h1, h2, h3, hp⟩ := h
    simp only [ht, hp, true_iff]
    exact ⟨t3, by simp, h3⟩
  · obtain ⟨t1, a, t2, cl, t3, cd, rest, ht, h1, h2, h3, hp⟩ := h
    simp [ht, hp, h1, h2, h3]

/-- The parser skips the line without a point exactly when the line has fewer than three
fields and all of them convert. -/
theorem parseLine_skipped_iff (stod : List Char → Option K) (line : List Char) :
    parseLine stod line = .skipped ↔
      (tokens line).length < 3 ∧ ∀ t ∈ tokens line, stod t ≠ none := by
  rcases parseLine_cases stod line with h | h | h | h | h | h | h
  · obtain ⟨ht, hp⟩ := h
    simp [ht, hp]
  · obtain ⟨t1, rest, ht, h1, hp⟩ := h
    simp only [ht, hp, reduceCtorEq, false_iff, not_and, not_forall]
    intro _
    exact ⟨t1, by simp, by simp [h1]⟩
  · obtain ⟨t1, a, ht, h1, hp⟩ := h
    simp [ht, hp, h1]
  · obtain ⟨t1, a, t2, rest, ht, h1, h2, hp⟩ := h
    simp only [ht, hp, reduceCtorEq, false_iff, not_and, not_forall]
    intro _
    exact ⟨t2, by simp, by simp [h2]⟩
  · obtain ⟨t1, a, t2, cl, ht, h1, h2, hp⟩ := h
    simp [ht, hp, h1, h2]
  · obtain ⟨t1, a, t2, cl, t3, rest, ht, h1, h2, h3, hp⟩ := h
    simp [ht, hp]
  · obtain ⟨t1, a, t2, cl, t3, cd, rest, ht, h1, h2, h3, hp⟩ := h
    simp [ht, hp]

/-- The parser makes a point exactly of a line whose first three fields convert; the point
holds the first field times `M_PI / 180.0`, the second and the third. -/
theorem parseLine_point_iff (stod : List Char → Option K) (line : List Char)
    (p : DataPoint (Double K)) :
    parseLine stod line = .point p ↔
      ∃ t1 t2 t3 rest a cl cd, tokens line = t1 :: t2 :: t3 :: rest ∧ stod t1 = some a ∧
        stod t2 = some cl ∧ stod t3 = some cd ∧
        p = ⟨val (a * 3.14159265358979323846 / 180), val cl, val cd⟩ := by
  have hpi : ∀ a : K, val a * (M_PI : Double K) / 180.0
      = val (a * 3.14159265358979323846 / 180) := by
    intro a
    have h180 : (180.0 : K) ≠ 0 := by norm_num
    simp only [M_PI, Double.ofScientific_eq, Double.val_mul_val, Double.val_div_val, h180,
      if_false, Double.val_inj_iff]
    norm_num
  rcases parseLine_cases stod line with h | h | h | h | h | h | h
  · obtain ⟨ht, hp⟩ := h
    simp [ht, hp]
  · obtain ⟨t1, rest, ht, h1, hp⟩ := h
    rw [hp]
    constructor
    · intro h
      exact absurd h (by simp)
    · rintro ⟨u1, u2, u3, urest, a2, cl2, cd2, hu, g1, _⟩
      rw [ht] at hu
      injection hu with e1 e2
      rw [← e1, h1] at g1
      exact absurd g1 (by simp)
  · obtain ⟨t1, a, ht, h1, hp⟩ := h
    simp [ht, hp]
  · obtain ⟨t1, a, t2, rest, ht, h1, h2, hp⟩ := h
    rw [hp]
    constructor
    · intro h
      exact absurd h (by simp)
    · rintro ⟨u1, u2, u3, urest, a2, cl2, cd2, hu, _, g2, _⟩
      rw [ht] at hu
      injection hu with e1 e2
      injection e2 with e3 e4
      rw [← e3, h2] at g2
      exact absurd g2 (by simp)
  · obtain ⟨t1, a, t2, cl, ht, h1, h2, hp⟩ := h
    simp [ht, hp]
  · obtain ⟨t1, a, t2, cl, t3, rest, ht, h1, h2, h3, hp⟩ := h
    rw [hp]
    constructor
    · intro h
      exact absurd h (by simp)
    · rintro ⟨u1, u2, u3, urest, a2, cl2, cd2, hu, _, _, g3, _⟩
      rw [ht] at hu
      injection hu with e1 e2
      injection e2 with e3 e4
      injection e4 with e5 e6
      rw [← e5, h3] at g3
      exact absurd g3 (by simp)
  · obtain ⟨t1, a, t2, cl, t3, cd, rest, ht, h1, h2, h3, hp⟩ := h
    rw [hp, hpi]
    constructor
    · intro h
      have h4 : p = ⟨val (a * 3.14159265358979323846 / 180), val cl, val cd⟩ := by
        injection h with h5
        exact h5.symm
      exact ⟨t1, t2, t3, rest, a, cl, cd, ht, h1, h2, h3, h4⟩
    · rintro ⟨u1, u2, u3, urest, a2, cl2, cd2, hu, g1, g2, g3, hp2⟩
      rw [ht] at hu
      simp only [List.cons.injEq] at hu
      obtain ⟨e1, e2, e3, _⟩ := hu
      rw [← e1, h1] at g1
      rw [← e2, h2] at g2
      rw [← e3, h3] at g3
      simp only [Option.some.injEq] at g1 g2 g3
      rw [hp2, ← g1, ← g2, ← g3]

/-- The loader on a readable source none of whose parsed lines makes `std::stod` throw. -/
theorem loadFromCSV_no_throw (stod : List Char → Option K) (lines : List (List Char))
    (h : ∀ line ∈ dataLines lines true, parseLine stod line ≠ .threw) :
    AeroDataTable.loadFromCSV stod (some lines)
      = if (parsedRows stod (dataLines lines true)).isEmpty then .error .noValidData
        else .ok ⟨sortByAlpha (parsedRows stod (dataLines lines true))⟩ := by
  simp only [AeroDataTable.loadFromCSV, readLines_ok stod lines true [] h, List.nil_append]

/-- The loader on a readable source one of whose parsed lines makes `std::stod` throw. -/
theorem loadFromCSV_throw (stod : List Char → Option K) (lines : List (List Char))
    (h : ∃ line ∈ dataLines lines true, parseLine stod line = .threw) :
    AeroDataTable.loadFromCSV stod (some lines) = .error .stodFailed := by
  simp only [AeroDataTable.loadFromCSV, readLines_error stod lines true [] h]

/-- The parsed rows are the points of the lines of which the parser makes a point. -/
theorem mem_parsedRows (stod : List Char → Option K) (lines : List (List Char))
    (p : DataPoint (Double K)) :
    p ∈ parsedRows stod lines ↔ ∃ line ∈ lines, parseLine stod line = .point p := by
  simp only [parsedRows, List.mem_filterMap]
  constructor
  · rintro ⟨line, hl, hp⟩
    refine ⟨line, hl, ?_⟩
    cases hq : parseLine stod line with
    | skipped => simp [hq] at hp
    | threw => simp [hq] at hp
    | point q =>
      simp only [hq, Option.some.injEq] at hp
      rw [hp]
  · rintro ⟨line, hl, hp⟩
    exact ⟨line, hl, by simp [hp]⟩

/-- Lines with fewer than three fields contribute no row. -/
theorem parsedRows_filter (stod : List Char → Option K) (lines : List (List Char)) :
    parsedRows stod lines
      = parsedRows stod (lines.filter (fun line => decide (3 ≤ (tokens line).length))) := by
  induction lines with
  | nil => rfl
  | cons line rest ih =>
    by_cases h3 : 3 ≤ (tokens line).length
    · rw [List.filter_cons_of_pos (by simpa using h3)]
      simp only [parsedRows, List.filterMap_cons] at ih ⊢
      rw [ih]
    · rw [List.filter_cons_of_neg (by simpa using h3)]
      have hnp : ∀ p, parseLine stod line ≠ .point p := by
        intro p hp
        obtain ⟨t1, t2, t3, r, _, _, _, ht, _⟩ := (parseLine_point_iff stod line p).mp hp
        rw [ht] at h3
        simp at h3
      rw [← ih]
      cases hq : parseLine stod line with
      | skipped => exact parsedRows_cons_skipped stod line rest hq
      | threw => simp only [parsedRows, List.filterMap_cons, hq]
      | point q => exact absurd hq (hnp q)

/-- The lines handed to the parser are lines of the source. -/
theorem mem_of_mem_dataLines (l : List Char) :
    ∀ (lines : List (List Char)) (firstLine : Bool), l ∈ dataLines lines firstLine →
      l ∈ lines := by
  intro lines
  induction lines with
  | nil =>
    intro firstLine h
    simp [dataLines] at h
  | cons line rest ih =>
    intro firstLine h
    by_cases hb : isBlankLine line = true
    · rw [dataLines_blank line rest firstLine hb] at h
      exact List.mem_cons_of_mem _ (ih firstLine h)
    · by_cases hh : (firstLine && startsWithLetter line) = true
      · rw [dataLines_header line rest firstLine hb hh] at h
        exact List.mem_cons_of_mem _ (ih false h)
      · rw [dataLines_data line rest firstLine hb hh] at h
        rcases List.mem_cons.mp h with h1 | h1
        · rw [h1]
          exact List.mem_cons_self _ _
        · exact List.mem_cons_of_mem _ (ih false h1)

/-- A table returned by the loader holds the sorted parsed rows. -/
theorem loadFromCSV_ok (stod : List Char → Option K) (file : Option (List (List Char)))
    (table : AeroDataTable K) (h : AeroDataTable.loadFromCSV stod file = .ok table) :
    ∃ lines, file = some lines ∧ parsedRows stod (dataLines lines true) ≠ [] ∧
      table.data = sortByAlpha (parsedRows stod (dataLines lines true)) := by
  cases file with
  | none => simp [AeroDataTable.loadFromCSV] at h
  | some lines =>
    refine ⟨lines, rfl, ?_⟩
    by_cases hthrow : ∃ line ∈ dataLines lines true, parseLine stod line = .threw
    · rw [loadFromCSV_throw stod lines hthrow] at h
      cases h
    · have hno : ∀ line ∈ dataLines lines true, parseLine stod line ≠ .threw :=
        fun line hl hp => hthrow ⟨line, hl, hp⟩
      rw [loadFromCSV_no_throw stod lines hno] at h
      by_cases he : (parsedRows stod (dataLines lines true)).isEmpty = true
      · rw [if_pos he] at h
        cases h
      · rw [if_neg he] at h
        cases h
        refine ⟨?_, rfl⟩
        intro hnil
        rw [hnil] at he
        exact he rfl

/-! ## The integrator on real inputs -/

/-- A speed that fails the guard `|V| < 1e-9` is not zero. -/
theorem ne_zero_of_not_small {V : K} (h : ¬ |V| < 1e-9) : V ≠ 0 := by
  intro h0
  apply h
  rw [h0]
  norm_num

/-- On real inputs with `mass ≠ 0` every derivative is a real number. -/
theorem computeDerivatives_lift (cosf sinf : K → K) (s : AircraftState K)
    (L D W T mass : K) (hmass : mass ≠ 0) :
    computeDerivatives cosf sinf s.lift (val L) (val D) (val W) (val T) (val mass)
      = ⟨val (s.V * cosf s.gamma), val (s.V * sinf s.gamma),
         val ((T - D - W * sinf s.gamma) / mass),
         val (if |s.V| < 1e-9 then 0 else (L - W * cosf s.gamma) / (mass * s.V))⟩ := by
  by_cases hV : |s.V| < 1e-9
  · simp [computeDerivatives, AircraftState.lift, hmass, hV]
    norm_num
  · have hV0 : s.V ≠ 0 := ne_zero_of_not_small hV
    simp [computeDerivatives, AircraftState.lift, hmass, hV, hV0]

/-! ### The integrator with rounded arithmetic -/

theorem Double.map_id (x : Double K) : x.map id = x := by
  cases x <;> rfl

/-- With the identity as rounding, the rounded derivatives are the exact ones. -/
theorem computeDerivativesRounded_id (cosf sinf : K → K) (state : AircraftState (Double K))
    (L D W T mass : Double K) :
    computeDerivativesRounded id cosf sinf state L D W T mass
      = computeDerivatives cosf sinf state L D W T mass := by
  simp only [computeDerivativesRounded, computeDerivatives, Double.map_id]

/-- With the identity as rounding, the rounded step is the exact one. -/
theorem trapezoidalStepRounded_id (cosf sinf : K → K) (state : AircraftState (Double K))
    (L D W T mass dt : Double K) :
    trapezoidalStepRounded id cosf sinf state L D W T mass dt
      = trapezoidalStep cosf sinf state L D W T mass dt := by
  simp only [trapezoidalStepRounded, trapezoidalStep, computeDerivativesRounded_id,
    Double.map_id]

/-- A mass of at least normal magnitude times a speed that fails the guard exceeds, in
magnitude, half the smallest positive double. -/
theorem underflow_bound_lt {mass V : K} (hmass : 1 / 2 ^ 1022 ≤ |mass|)
    (hV : ¬ |V| < 1e-9) : 1 / 2 ^ 1075 < |mass * V| := by
  have hV2 : (1e-9 : K) ≤ |V| := not_lt.mp hV
  have h53 : (1 : K) / 2 ^ 53 < 1e-9 := by norm_num
  have hsplit : (1 : K) / 2 ^ 1075 = 1 / 2 ^ 1022 * (1 / 2 ^ 53) := by
    rw [show (1075 : ℕ) = 1022 + 53 from rfl, pow_add]
    field_simp
  have hpos : (0 : K) < 1 / 2 ^ 1022 := by positivity
  rw [abs_mul, hsplit]
  calc (1 : K) / 2 ^ 1022 * (1 / 2 ^ 53) < 1 / 2 ^ 1022 * 1e-9 :=
        mul_lt_mul_of_pos_left h53 hpos
    _ ≤ |mass| * |V| := mul_le_mul hmass hV2 (by norm_num) (abs_nonneg _)

/-- With a rounding that sends no number above half the smallest positive double to zero,
and a mass of at least normal magnitude, the rounded derivatives at a real state are real
numbers: no divisor is zero. -/
theorem computeDerivativesRounded_lift (fl cosf sinf : K → K)
    (hfl : ∀ x : K, 1 / 2 ^ 1075 < |x| → fl x ≠ 0) (u : AircraftState K)
    (L D W T mass : K) (hmass : 1 / 2 ^ 1022 ≤ |mass|) :
    ∃ dx dz dV dgamma : K,
      computeDerivativesRounded fl cosf sinf u.lift (val L) (val D) (val W) (val T)
        (val mass) = ⟨val dx, val dz, val dV, val dgamma⟩ := by
  have hpos : (0 : K) < 1 / 2 ^ 1022 := by positivity
  have hm : mass ≠ 0 := abs_pos.mp (lt_of_lt_of_le hpos hmass)
  by_cases hV : |u.V| < 1e-9
  · refine ⟨fl (u.V * cosf u.gamma), fl (u.V * sinf u.gamma),
      fl (fl (fl (T - D) - fl (W * sinf u.gamma)) / mass), 0, ?_⟩
    simp only [computeDerivativesRounded, AircraftState.lift, Double.map_val,
      Double.val_mul_val, Double.val_sub_val, Double.val_div_val, hm, if_false,
      Double.abs_val, Double.ofScientific_eq, Double.val_lt_val, hV, if_true]
    congr 1
    simp only [Double.val_inj_iff]
    norm_num
  · have hd : fl (mass * u.V) ≠ 0 := hfl _ (underflow_bound_lt hmass hV)
    refine ⟨fl (u.V * cosf u.gamma), fl (u.V * sinf u.gamma),
      fl (fl (fl (T - D) - fl (W * sinf u.gamma)) / mass),
      fl (fl (L - fl (W * cosf u.gamma)) / fl (mass * u.V)), ?_⟩
    simp only [computeDerivativesRounded, AircraftState.lift, Double.map_val,
      Double.val_mul_val, Double.val_sub_val, Double.val_div_val, hm, if_false,
      Double.abs_val, Double.ofScientific_eq, Double.val_lt_val, hV, hd]

/-- Under the same conditions the rounded step of a real state is a real state. -/
theorem trapezoidalStepRounded_lift (fl cosf sinf : K → K)
    (hfl : ∀ x : K, 1 / 2 ^ 1075 < |x| → fl x ≠ 0) (s : AircraftState K)
    (L D W T mass dt : K) (hmass : 1 / 2 ^ 1022 ≤ |mass|) :
    (∃ u : AircraftState K,
      (⟨(s.lift.x + (val dt * (computeDerivativesRounded fl cosf sinf s.lift
            (val L) (val D) (val W) (val T) (val mass)).dx).map fl).map fl,
        (s.lift.z + (val dt * (computeDerivativesRounded fl cosf sinf s.lift
            (val L) (val D) (val W) (val T) (val mass)).dz).map fl).map fl,
        (s.lift.V + (val dt * (computeDerivativesRounded fl cosf sinf s.lift
            (val L) (val D) (val W) (val T) (val mass)).dV).map fl).map fl,
        (s.lift.gamma + (val dt * (computeDerivativesRounded fl cosf sinf s.lift
            (val L) (val D) (val W) (val T) (val mass)).dgamma).map fl).map fl⟩ :
          AircraftState (Double K)) = u.lift) ∧
    ∃ next : AircraftState K,
      trapezoidalStepRounded fl cosf sinf s.lift (val L) (val D) (val W) (val T) (val mass)
        (val dt) = next.lift := by
  obtain ⟨dx1, dz1, dV1, dg1, h1⟩ :=
    computeDerivativesRounded_lift fl cosf sinf hfl s L D W T mass hmass
  obtain ⟨dx2, dz2, dV2, dg2, h2⟩ :=
    computeDerivativesRounded_lift fl cosf sinf hfl
      ⟨fl (s.x + fl (dt * dx1)), fl (s.z + fl (dt * dz1)), fl (s.V + fl (dt * dV1)),
       fl (s.gamma + fl (dt * dg1))⟩ L D W T mass hmass
  simp only [AircraftState.lift] at h2
  constructor
  · rw [h1]
    exact ⟨⟨_, _, _, _⟩, rfl⟩
  · simp only [trapezoidalStepRounded, h1]
    simp only [AircraftState.lift, Double.val_mul_val, Double.val_add_val, Double.map_val,
      h2, Double.ofScientific_eq]
    exact ⟨⟨_, _, _, _⟩, rfl⟩

/-! ## Claims -/

/-- C1: `trapezoidalStep` is the Heun update: with `d1` the derivatives at the state,
`state*` the forward-Euler prediction and `d2` the derivatives at `state*` under the same
forces, each component of the result is the state's component plus `dt * 0.5 * (d1 + d2)`. -/
theorem trapezoidalStep_eq_heun (cosf sinf : K → K) (state : AircraftState (Double K))
    (L D W T mass dt : Double K) :
    let d1 := computeDerivatives cosf sinf state L D W T mass
    let state_star : AircraftState (Double K) :=
      ⟨state.x + dt * d1.dx, state.z + dt * d1.dz,
       state.V + dt * d1.dV, state.gamma + dt * d1.dgamma⟩
    let d2 := computeDerivatives cosf sinf state_star L D W T mass
    (trapezoidalStep cosf sinf state L D W T mass dt).x
        = state.x + dt * 0.5 * (d1.dx + d2.dx) ∧
    (trapezoidalStep cosf sinf state L D W T mass dt).z
        = state.z + dt * 0.5 * (d1.dz + d2.dz) ∧
    (trapezoidalStep cosf sinf state L D W T mass dt).V
        = state.V + dt * 0.5 * (d1.dV + d2.dV) ∧
    (trapezoidalStep cosf sinf state L D W T mass dt).gamma
        = state.gamma + dt * 0.5 * (d1.dgamma + d2.dgamma) := by
  intro d1 state_star d2
  exact ⟨rfl, rfl, rfl, rfl⟩

/-- C2: on a state of real numbers `computeDerivatives` returns `dx = V*cos(gamma)`,
`dz = V*sin(gamma)`, `dV = (T - D - W*sin(gamma))/mass`, and `dgamma = 0` when
`|V| < 1e-9`, whatever `L`, `W` and `mass` are, and `dgamma = (L - W*cos(gamma))/(mass*V)`
otherwise.  The two quotients are quotients of doubles; for `mass ≠ 0` they are the real
quotients. -/
theorem computeDerivatives_spec (s : AircraftState ℝ) (L D W T mass : ℝ) :
    (computeDerivatives Real.cos Real.sin s.lift (val L) (val D) (val W) (val T) (val mass)).dx
        = val (s.V * Real.cos s.gamma) ∧
    (computeDerivatives Real.cos Real.sin s.lift (val L) (val D) (val W) (val T) (val mass)).dz
        = val (s.V * Real.sin s.gamma) ∧
    (computeDerivatives Real.cos Real.sin s.lift (val L) (val D) (val W) (val T) (val mass)).dV
        = val (T - D - W * Real.sin s.gamma) / val mass ∧
    (mass ≠ 0 →
      (computeDerivatives Real.cos Real.sin s.lift (val L) (val D) (val W) (val T)
        (val mass)).dV = val ((T - D - W * Real.sin s.gamma) / mass)) ∧
    (|s.V| < 1e-9 → ∀ L1 W1 mass1 : Double ℝ,
      (computeDerivatives Real.cos Real.sin s.lift L1 (val D) W1 (val T) mass1).dgamma
        = val 0) ∧
    (¬ |s.V| < 1e-9 →
      (computeDerivatives Real.cos Real.sin s.lift (val L) (val D) (val W) (val T)
        (val mass)).dgamma = val (L - W * Real.cos s.gamma) / val (mass * s.V)) ∧
    (¬ |s.V| < 1e-9 → mass ≠ 0 →
      (computeDerivatives Real.cos Real.sin s.lift (val L) (val D) (val W) (val T)
        (val mass)).dgamma = val ((L - W * Real.cos s.gamma) / (mass * s.V))) := by
  refine ⟨rfl, rfl, rfl, ?_, ?_, ?_, ?_⟩
  · intro hm
    simp [computeDerivatives, AircraftState.lift, hm]
  · intro h L1 W1 mass1
    simp only [computeDerivatives, AircraftState.lift, Double.abs_val, Double.ofScientific_eq,
      Double.val_lt_val, h, if_true, Double.val_inj_iff]
    norm_num
  · intro h
    simp [computeDerivatives, AircraftState.lift, h]
  · intro h hm
    have hV : s.V ≠ 0 := ne_zero_of_not_small h
    simp [computeDerivatives, AircraftState.lift, h, hm, hV]

/-- Witness for C2: at `V = 0` the guard gives `dgamma = 0` although `L`, `W`, `mass` are
nonzero, and at `V = 10`, `L = 10`, `W = 0`, `mass = 1` the quotient branch gives
`(10 - 0*cos 0)/(1*10)`. -/
theorem computeDerivatives_spec_witness :
    (computeDerivatives Real.cos Real.sin (AircraftState.lift ⟨0, 0, 0, 0⟩)
        (val 5) (val 0) (val 3) (val 0) (val 2)).dgamma = val 0 ∧
    (computeDerivatives Real.cos Real.sin (AircraftState.lift ⟨0, 0, 10, 0⟩)
        (val 10) (val 0) (val 0) (val 0) (val 1)).dgamma
      = val ((10 - 0 * Real.cos 0) / (1 * 10)) :=
  ⟨(computeDerivatives_spec ⟨0, 0, 0, 0⟩ 5 0 3 0 2).2.2.2.2.1 (by norm_num) _ _ _,
   (computeDerivatives_spec ⟨0, 0, 10, 0⟩ 10 0 0 0 1).2.2.2.2.2.2 (by norm_num) (by norm_num)⟩

/-- C3 fails as stated: "every mass" includes `mass = 0`, where `dV = 0/0` is undefined and
so is the new speed; on the test state with `mass = 0` the step does not return `V' = 10`. -/
theorem trapezoidalStep_zero_forces_mass_zero :
    (trapezoidalStep Real.cos Real.sin (AircraftState.lift ⟨0, 0, 10, 0⟩)
        (val 0) (val 0) (val 0) (val 0) (val 0) (val 1)).V = undef ∧
    (trapezoidalStep Real.cos Real.sin (AircraftState.lift ⟨0, 0, 10, 0⟩)
        (val 0) (val 0) (val 0) (val 0) (val 0) (val 1)).V ≠ val 10 := by
  constructor <;> simp [trapezoidalStep, computeDerivatives, AircraftState.lift]

/-- C3, amended: with `L = D = W = T = 0` and `gamma = 0`, for every `mass ≠ 0` and every
`dt` the step yields `x' = x + V*dt`, `z' = z`, `V' = V` and `gamma' = gamma`. -/
theorem trapezoidalStep_zero_forces (s : AircraftState ℝ) (mass dt : ℝ)
    (hgamma : s.gamma = 0) (hmass : mass ≠ 0) :
    (trapezoidalStep Real.cos Real.sin s.lift (val 0) (val 0) (val 0) (val 0)
        (val mass) (val dt)).x = val (s.x + s.V * dt) ∧
    (trapezoidalStep Real.cos Real.sin s.lift (val 0) (val 0) (val 0) (val 0)
        (val mass) (val dt)).z = val s.z ∧
    (trapezoidalStep Real.cos Real.sin s.lift (val 0) (val 0) (val 0) (val 0)
        (val mass) (val dt)).V = val s.V ∧
    (trapezoidalStep Real.cos Real.sin s.lift (val 0) (val 0) (val 0) (val 0)
        (val mass) (val dt)).gamma = val s.gamma := by
  by_cases hV : |s.V| < 1e-9
  · simp [trapezoidalStep, computeDerivatives, AircraftState.lift, hgamma, hmass, hV]
    norm_num
    ring
  · have hV0 : s.V ≠ 0 := ne_zero_of_not_small hV
    simp [trapezoidalStep, computeDerivatives, AircraftState.lift, hgamma, hmass, hV, hV0]
    norm_num
    ring

/-- Witness for C3: the test state `x = 0, z = 0, V = 10, gamma = 0`, `mass = 1`, `dt = 1`. -/
theorem trapezoidalStep_zero_forces_witness :
    (trapezoidalStep Real.cos Real.sin (AircraftState.lift ⟨0, 0, 10, 0⟩)
        (val 0) (val 0) (val 0) (val 0) (val 1) (val 1)).x = val (0 + 10 * 1) ∧
    (trapezoidalStep Real.cos Real.sin (AircraftState.lift ⟨0, 0, 10, 0⟩)
        (val 0) (val 0) (val 0) (val 0) (val 1) (val 1)).z = val 0 ∧
    (trapezoidalStep Real.cos Real.sin (AircraftState.lift ⟨0, 0, 10, 0⟩)
        (val 0) (val 0) (val 0) (val 0) (val 1) (val 1)).V = val 10 ∧
    (trapezoidalStep Real.cos Real.sin (AircraftState.lift ⟨0, 0, 10, 0⟩)
        (val 0) (val 0) (val 0) (val 0) (val 1) (val 1)).gamma = val 0 :=
  trapezoidalStep_zero_forces ⟨0, 0, 10, 0⟩ 1 1 rfl one_ne_zero

/-- C4: with `L = D = W = 0`, `T ≠ 0` and `mass > 0`, for every state and every `dt` the
step yields `V' = V + (T/mass)*dt`. -/
theorem trapezoidalStep_thrust_speed (s : AircraftState ℝ) (T mass dt : ℝ)
    (_hT : T ≠ 0) (hmass : 0 < mass) :
    (trapezoidalStep Real.cos Real.sin s.lift (val 0) (val 0) (val 0) (val T)
        (val mass) (val dt)).V = val (s.V + (T / mass) * dt) := by
  have hm : mass ≠ 0 := ne_of_gt hmass
  by_cases hV : |s.V| < 1e-9
  · simp [trapezoidalStep, computeDerivatives, AircraftState.lift, hm, hV]
    norm_num
    ring
  · have hV0 : s.V ≠ 0 := ne_zero_of_not_small hV
    simp [trapezoidalStep, computeDerivatives, AircraftState.lift, hm, hV, hV0]
    norm_num
    ring

/-- Witness for C4: the test input `V = 0`, `T = 10`, `mass = 2`, `dt = 1`, where the
new speed is `0 + (10/2)*1 = 5`. -/
theorem trapezoidalStep_thrust_speed_witness :
    (trapezoidalStep Real.cos Real.sin (AircraftState.lift ⟨0, 0, 0, 0⟩)
        (val 0) (val 0) (val 0) (val 10) (val 2) (val 1)).V = val (0 + (10 / 2) * 1) :=
  trapezoidalStep_thrust_speed ⟨0, 0, 0, 0⟩ 10 2 1 (by norm_num) (by norm_num)

/-- C5 fails as stated: at `gamma = pi/2` (state `x = 0, z = 0, V = 0`, `T = 10`,
`mass = 2`, `dt = 1`) the step gives `x' = 0`, not `0 + 0.5*(0 + 5)*1`, and `z' = 2.5`,
not `z' = z = 0`. -/
theorem trapezoidalStep_thrust_position_counterexample :
    (10 : ℝ) ≠ 0 ∧ (0 : ℝ) < 2 ∧
    (trapezoidalStep Real.cos Real.sin (AircraftState.lift ⟨0, 0, 0, Real.pi / 2⟩)
        (val 0) (val 0) (val 0) (val 10) (val 2) (val 1)).x
      ≠ val (0 + 0.5 * (0 + (0 + (10 / 2) * 1)) * 1) ∧
    (trapezoidalStep Real.cos Real.sin (AircraftState.lift ⟨0, 0, 0, Real.pi / 2⟩)
        (val 0) (val 0) (val 0) (val 10) (val 2) (val 1)).z ≠ val 0 := by
  refine ⟨by norm_num, by norm_num, ?_, ?_⟩
  · simp [trapezoidalStep, computeDerivatives, AircraftState.lift]
    norm_num
  · simp [trapezoidalStep, computeDerivatives, AircraftState.lift]
    norm_num

/-- C5, amended: with `L = D = W = 0`, `T ≠ 0` and `mass > 0`, for every state and every
`dt`, writing `V' = V + (T/mass)*dt` for the resulting speed, the step yields
`x' = x + 0.5*(V + V')*dt*cos(gamma)` and `z' = z + 0.5*(V + V')*dt*sin(gamma)`; hence for
`gamma = 0` it yields `x' = x + 0.5*(V + V')*dt` and `z' = z`. -/
theorem trapezoidalStep_thrust_position (s : AircraftState ℝ) (T mass dt : ℝ)
    (_hT : T ≠ 0) (hmass : 0 < mass) :
    (trapezoidalStep Real.cos Real.sin s.lift (val 0) (val 0) (val 0) (val T)
        (val mass) (val dt)).x
      = val (s.x + 0.5 * (s.V + (s.V + (T / mass) * dt)) * dt * Real.cos s.gamma) ∧
    (trapezoidalStep Real.cos Real.sin s.lift (val 0) (val 0) (val 0) (val T)
        (val mass) (val dt)).z
      = val (s.z + 0.5 * (s.V + (s.V + (T / mass) * dt)) * dt * Real.sin s.gamma) ∧
    (s.gamma = 0 →
      (trapezoidalStep Real.cos Real.sin s.lift (val 0) (val 0) (val 0) (val T)
          (val mass) (val dt)).x
        = val (s.x + 0.5 * (s.V + (s.V + (T / mass) * dt)) * dt) ∧
      (trapezoidalStep Real.cos Real.sin s.lift (val 0) (val 0) (val 0) (val T)
          (val mass) (val dt)).z = val s.z) := by
  have hm : mass ≠ 0 := ne_of_gt hmass
  have hx : (trapezoidalStep Real.cos Real.sin s.lift (val 0) (val 0) (val 0) (val T)
        (val mass) (val dt)).x
      = val (s.x + 0.5 * (s.V + (s.V + (T / mass) * dt)) * dt * Real.cos s.gamma) := by
    by_cases hV : |s.V| < 1e-9
    · simp [trapezoidalStep, computeDerivatives, AircraftState.lift, hm, hV]
      norm_num
      ring
    · have hV0 : s.V ≠ 0 := ne_zero_of_not_small hV
      simp [trapezoidalStep, computeDerivatives, AircraftState.lift, hm, hV, hV0]
      norm_num
      ring
  have hz : (trapezoidalStep Real.cos Real.sin s.lift (val 0) (val 0) (val 0) (val T)
        (val mass) (val dt)).z
      = val (s.z + 0.5 * (s.V + (s.V + (T / mass) * dt)) * dt * Real.sin s.gamma) := by
    by_cases hV : |s.V| < 1e-9
    · simp [trapezoidalStep, computeDerivatives, AircraftState.lift, hm, hV]
      norm_num
      ring
    · have hV0 : s.V ≠ 0 := ne_zero_of_not_small hV
      simp [trapezoidalStep, computeDerivatives, AircraftState.lift, hm, hV, hV0]
      norm_num
      ring
  refine ⟨hx, hz, ?_⟩
  intro hg
  rw [hx, hz, hg]
  simp

/-- Witness for C5: the test input `x = 0, z = 0, V = 0, gamma = 0`, `T = 10`, `mass = 2`,
`dt = 1`, where `x' = 0 + 0.5*(0 + 5)*1 = 2.5` and `z' = 0`. -/
theorem trapezoidalStep_thrust_position_witness :
    (trapezoidalStep Real.cos Real.sin (AircraftState.lift ⟨0, 0, 0, 0⟩)
        (val 0) (val 0) (val 0) (val 10) (val 2) (val 1)).x
      = val (0 + 0.5 * (0 + (0 + (10 / 2) * 1)) * 1) ∧
    (trapezoidalStep Real.cos Real.sin (AircraftState.lift ⟨0, 0, 0, 0⟩)
        (val 0) (val 0) (val 0) (val 10) (val 2) (val 1)).z = val 0 :=
  (trapezoidalStep_thrust_position ⟨0, 0, 0, 0⟩ 10 2 1 (by norm_num) (by norm_num)).2.2 rfl

/-- C6 fails as stated: `V ≠ 0` does not exclude the guard.  At `V = 1e-10` (with
`gamma = 0`, `L = 10`, `mass = 1`, `dt = 1`) both passes take the branch `dgamma = 0`, so
`gamma' = 0`, not `0 + (10/(1*1e-10))*1`.  And at `mass = 0` (with `V = 10`) the new angle
is not a number at all. -/
theorem trapezoidalStep_lift_counterexample :
    (1e-10 : ℝ) ≠ 0 ∧
    (trapezoidalStep Real.cos Real.sin (AircraftState.lift ⟨0, 0, 1e-10, 0⟩)
        (val 10) (val 0) (val 0) (val 0) (val 1) (val 1)).gamma = val 0 ∧
    (trapezoidalStep Real.cos Real.sin (AircraftState.lift ⟨0, 0, 1e-10, 0⟩)
        (val 10) (val 0) (val 0) (val 0) (val 1) (val 1)).gamma
      ≠ val (0 + (10 / (1 * 1e-10)) * 1) ∧
    (trapezoidalStep Real.cos Real.sin (AircraftState.lift ⟨0, 0, 10, 0⟩)
        (val 10) (val 0) (val 0) (val 0) (val 0) (val 1)).gamma = undef := by
  have h : |(1e-10 : ℝ)| < 1e-9 := by
    rw [abs_of_pos (by norm_num)]
    norm_num
  refine ⟨by norm_num, ?_, ?_, ?_⟩
  · simp [trapezoidalStep, computeDerivatives, AircraftState.lift, h]
    norm_num
  · simp [trapezoidalStep, computeDerivatives, AircraftState.lift, h]
    norm_num
  · simp [trapezoidalStep, computeDerivatives, AircraftState.lift]

/-- C6, amended: with `D = W = T = 0`, for every state whose speed passes the guard,
`|V| >= 1e-9`, every `L`, every `mass ≠ 0` and every `dt`, the step yields
`gamma' = gamma + (L/(mass*V))*dt`; when `|V| < 1e-9` it yields `gamma' = gamma`. -/
theorem trapezoidalStep_lift_angle (s : AircraftState ℝ) (L mass dt : ℝ)
    (hmass : mass ≠ 0) :
    (¬ |s.V| < 1e-9 →
      (trapezoidalStep Real.cos Real.sin s.lift (val L) (val 0) (val 0) (val 0)
          (val mass) (val dt)).gamma = val (s.gamma + (L / (mass * s.V)) * dt)) ∧
    (|s.V| < 1e-9 →
      (trapezoidalStep Real.cos Real.sin s.lift (val L) (val 0) (val 0) (val 0)
          (val mass) (val dt)).gamma = val s.gamma) := by
  constructor
  · intro hV
    have hV0 : s.V ≠ 0 := ne_zero_of_not_small hV
    simp [trapezoidalStep, computeDerivatives, AircraftState.lift, hmass, hV, hV0]
    norm_num
    ring
  · intro hV
    simp [trapezoidalStep, computeDerivatives, AircraftState.lift, hmass, hV]
    norm_num

/-- Witness for C6: the test input `V = 10, gamma = 0`, `L = 10`, `mass = 1`, `dt = 1`,
where `gamma' = 0 + (10/(1*10))*1 = 1`. -/
theorem trapezoidalStep_lift_angle_witness :
    (trapezoidalStep Real.cos Real.sin (AircraftState.lift ⟨0, 0, 10, 0⟩)
        (val 10) (val 0) (val 0) (val 0) (val 1) (val 1)).gamma
      = val (0 + (10 / (1 * 10)) * 1) :=
  (trapezoidalStep_lift_angle ⟨0, 0, 10, 0⟩ 10 1 1 one_ne_zero).1 (by norm_num)

/-- A product `dt * g dt` tends to `0` with `dt` as soon as `g` is bounded on `|dt| ≤ 1`. -/
theorem tendsto_mul_of_bounded (g : ℝ → ℝ) (C : ℝ) (hg : ∀ dt, |dt| ≤ 1 → |g dt| ≤ C) :
    Filter.Tendsto (fun dt => dt * g dt) (nhds 0) (nhds 0) := by
  have hlim : Filter.Tendsto (fun dt : ℝ => |dt| * C) (nhds 0) (nhds 0) := by
    have hc : Continuous (fun dt : ℝ => |dt| * C) := by fun_prop
    have := hc.tendsto 0
    simpa using this
  refine squeeze_zero_norm' ?_ hlim
  have hball : Metric.closedBall (0 : ℝ) 1 ∈ nhds (0 : ℝ) :=
    Metric.closedBall_mem_nhds 0 one_pos
  filter_upwards [hball] with dt hdt
  have h1 : |dt| ≤ 1 := by
    simpa [Metric.mem_closedBall, Real.dist_eq] using hdt
  rw [Real.norm_eq_abs, abs_mul]
  exact mul_le_mul_of_nonneg_left (hg dt h1) (abs_nonneg dt)

/-- On real inputs with `mass ≠ 0` the step is a state of real numbers, in closed form. -/
theorem trapezoidalStep_lift (cosf sinf : K → K) (s : AircraftState K)
    (L D W T mass dt : K) (hmass : mass ≠ 0) :
    trapezoidalStep cosf sinf s.lift (val L) (val D) (val W) (val T) (val mass) (val dt)
      = ⟨val (s.x + dt * 0.5 * (s.V * cosf s.gamma
            + (s.V + dt * ((T - D - W * sinf s.gamma) / mass))
              * cosf (s.gamma + dt * (if |s.V| < 1e-9 then 0
                  else (L - W * cosf s.gamma) / (mass * s.V))))),
         val (s.z + dt * 0.5 * (s.V * sinf s.gamma
            + (s.V + dt * ((T - D - W * sinf s.gamma) / mass))
              * sinf (s.gamma + dt * (if |s.V| < 1e-9 then 0
                  else (L - W * cosf s.gamma) / (mass * s.V))))),
         val (s.V + dt * 0.5 * ((T - D - W * sinf s.gamma) / mass
            + (T - D - W * sinf (s.gamma + dt * (if |s.V| < 1e-9 then 0
                  else (L - W * cosf s.gamma) / (mass * s.V)))) / mass)),
         val (s.gamma + dt * 0.5 * ((if |s.V| < 1e-9 then 0
                  else (L - W * cosf s.gamma) / (mass * s.V))
            + (if |s.V + dt * ((T - D - W * sinf s.gamma) / mass)| < 1e-9 then 0
               else (L - W * cosf (s.gamma + dt * (if |s.V| < 1e-9 then 0
                  else (L - W * cosf s.gamma) / (mass * s.V))))
                 / (mass * (s.V + dt * ((T - D - W * sinf s.gamma) / mass))))))⟩ := by
  have h1 := computeDerivatives_lift cosf sinf s L D W T mass hmass
  have h2 := computeDerivatives_lift cosf sinf
    ⟨s.x + dt * (s.V * cosf s.gamma), s.z + dt * (s.V * sinf s.gamma),
     s.V + dt * ((T - D - W * sinf s.gamma) / mass),
     s.gamma + dt * (if |s.V| < 1e-9 then 0 else (L - W * cosf s.gamma) / (mass * s.V))⟩
    L D W T mass hmass
  simp only [AircraftState.lift] at h2
  simp only [trapezoidalStep, h1]
  simp only [AircraftState.lift, Double.val_mul_val, Double.val_add_val, h2,
    Double.ofScientific_eq]

/-- The corrector's turn rate is bounded uniformly in the predicted state: the quotient is
only formed when the predicted speed is at least `1e-9` in absolute value. -/
theorem abs_dgamma_le (L W mass V g : ℝ) (hmass : 0 < mass) :
    |(if |V| < 1e-9 then 0 else (L - W * Real.cos g) / (mass * V))|
      ≤ (|L| + |W|) / (mass * 1e-9) := by
  have hC : 0 ≤ (|L| + |W|) / (mass * 1e-9) := by positivity
  split_ifs with h
  · simpa using hC
  · have hV : (1e-9 : ℝ) ≤ |V| := not_lt.mp h
    have hnum : |L - W * Real.cos g| ≤ |L| + |W| := by
      have h1 : |W * Real.cos g| ≤ |W| := by
        rw [abs_mul]
        exact mul_le_of_le_one_right (abs_nonneg W) (Real.abs_cos_le_one g)
      calc |L - W * Real.cos g| ≤ |L| + |W * Real.cos g| := abs_sub L (W * Real.cos g)
        _ ≤ |L| + |W| := by linarith
    have hden : mass * 1e-9 ≤ |mass * V| := by
      rw [abs_mul, abs_of_pos hmass]
      exact mul_le_mul_of_nonneg_left hV hmass.le
    rw [abs_div]
    exact div_le_div₀ (by positivity) hnum (by positivity) hden

/-- C7: for real inputs with `mass > 0`, each component of `trapezoidalStep` minus the
forward-Euler step `state + dt * computeDerivatives(state)` is a real number `e(dt)` that
tends to `0` as `dt` tends to `0`; and on the test input (`x = 0, z = 0, V = 10, gamma = 0`,
zero forces, `mass = 1`, `dt = 1e-6`) the two steps agree within `1e-6` on all four
components. -/
theorem trapezoidalStep_sub_euler_tendsto (s : AircraftState ℝ) (L D W T mass : ℝ)
    (hmass : 0 < mass) :
    (∃ ex ez eV eg : ℝ → ℝ,
      (∀ dt : ℝ,
        (trapezoidalStep Real.cos Real.sin s.lift (val L) (val D) (val W) (val T)
            (val mass) (val dt)).x
          - (val s.x + val dt * (computeDerivatives Real.cos Real.sin s.lift
              (val L) (val D) (val W) (val T) (val mass)).dx) = val (ex dt) ∧
        (trapezoidalStep Real.cos Real.sin s.lift (val L) (val D) (val W) (val T)
            (val mass) (val dt)).z
          - (val s.z + val dt * (computeDerivatives Real.cos Real.sin s.lift
              (val L) (val D) (val W) (val T) (val mass)).dz) = val (ez dt) ∧
        (trapezoidalStep Real.cos Real.sin s.lift (val L) (val D) (val W) (val T)
            (val mass) (val dt)).V
          - (val s.V + val dt * (computeDerivatives Real.cos Real.sin s.lift
              (val L) (val D) (val W) (val T) (val mass)).dV) = val (eV dt) ∧
        (trapezoidalStep Real.cos Real.sin s.lift (val L) (val D) (val W) (val T)
            (val mass) (val dt)).gamma
          - (val s.gamma + val dt * (computeDerivatives Real.cos Real.sin s.lift
              (val L) (val D) (val W) (val T) (val mass)).dgamma) = val (eg dt)) ∧
      Filter.Tendsto ex (nhds 0) (nhds 0) ∧ Filter.Tendsto ez (nhds 0) (nhds 0) ∧
      Filter.Tendsto eV (nhds 0) (nhds 0) ∧ Filter.Tendsto eg (nhds 0) (nhds 0)) ∧
    ((trapezoidalStep Real.cos Real.sin (AircraftState.lift ⟨0, 0, 10, 0⟩)
          (val 0) (val 0) (val 0) (val 0) (val 1) 1e-6).x
        - (val 0 + 1e-6 * (computeDerivatives Real.cos Real.sin
            (AircraftState.lift ⟨0, 0, 10, 0⟩) (val 0) (val 0) (val 0) (val 0)
            (val 1)).dx)).abs < 1e-6 ∧
    ((trapezoidalStep Real.cos Real.sin (AircraftState.lift ⟨0, 0, 10, 0⟩)
          (val 0) (val 0) (val 0) (val 0) (val 1) 1e-6).z
        - (val 0 + 1e-6 * (computeDerivatives Real.cos Real.sin
            (AircraftState.lift ⟨0, 0, 10, 0⟩) (val 0) (val 0) (val 0) (val 0)
            (val 1)).dz)).abs < 1e-6 ∧
    ((trapezoidalStep Real.cos Real.sin (AircraftState.lift ⟨0, 0, 10, 0⟩)
          (val 0) (val 0) (val 0) (val 0) (val 1) 1e-6).V
        - (val 10 + 1e-6 * (computeDerivatives Real.cos Real.sin
            (AircraftState.lift ⟨0, 0, 10, 0⟩) (val 0) (val 0) (val 0) (val 0)
            (val 1)).dV)).abs < 1e-6 ∧
    ((trapezoidalStep Real.cos Real.sin (AircraftState.lift ⟨0, 0, 10, 0⟩)
          (val 0) (val 0) (val 0) (val 0) (val 1) 1e-6).gamma
        - (val 0 + 1e-6 * (computeDerivatives Real.cos Real.sin
            (AircraftState.lift ⟨0, 0, 10, 0⟩) (val 0) (val 0) (val 0) (val 0)
            (val 1)).dgamma)).abs < 1e-6 := by
  have hm : mass ≠ 0 := ne_of_gt hmass
  have h10 : ¬ (10 : ℝ) < 1e-9 := by norm_num
  refine ⟨?_, ?_, ?_, ?_, ?_⟩
  · refine ⟨fun dt => dt * (0.5 * ((s.V + dt * ((T - D - W * Real.sin s.gamma) / mass))
          * Real.cos (s.gamma + dt * (if |s.V| < 1e-9 then 0
              else (L - W * Real.cos s.gamma) / (mass * s.V))) - s.V * Real.cos s.gamma)),
      fun dt => dt * (0.5 * ((s.V + dt * ((T - D - W * Real.sin s.gamma) / mass))
          * Real.sin (s.gamma + dt * (if |s.V| < 1e-9 then 0
              else (L - W * Real.cos s.gamma) / (mass * s.V))) - s.V * Real.sin s.gamma)),
      fun dt => dt * (0.5 * ((T - D - W * Real.sin (s.gamma + dt * (if |s.V| < 1e-9 then 0
              else (L - W * Real.cos s.gamma) / (mass * s.V)))) / mass
          - (T - D - W * Real.sin s.gamma) / mass)),
      fun dt => dt * (0.5 * ((if |s.V + dt * ((T - D - W * Real.sin s.gamma) / mass)| < 1e-9
            then 0
            else (L - W * Real.cos (s.gamma + dt * (if |s.V| < 1e-9 then 0
                else (L - W * Real.cos s.gamma) / (mass * s.V))))
              / (mass * (s.V + dt * ((T - D - W * Real.sin s.gamma) / mass))))
          - (if |s.V| < 1e-9 then 0 else (L - W * Real.cos s.gamma) / (mass * s.V)))),
      ?_, ?_, ?_, ?_, ?_⟩
    · intro dt
      rw [trapezoidalStep_lift Real.cos Real.sin s L D W T mass dt hm,
        computeDerivatives_lift Real.cos Real.sin s L D W T mass hm]
      simp only [Double.val_mul_val, Double.val_add_val, Double.val_sub_val,
        Double.val_inj_iff]
      refine ⟨?_, ?_, ?_, ?_⟩ <;> ring
    · have hc : Continuous (fun dt : ℝ =>
          dt * (0.5 * ((s.V + dt * ((T - D - W * Real.sin s.gamma) / mass))
          * Real.cos (s.gamma + dt * (if |s.V| < 1e-9 then 0
              else (L - W * Real.cos s.gamma) / (mass * s.V))) - s.V * Real.cos s.gamma))) := by
        fun_prop
      have := hc.tendsto 0
      simpa using this
    · have hc : Continuous (fun dt : ℝ =>
          dt * (0.5 * ((s.V + dt * ((T - D - W * Real.sin s.gamma) / mass))
          * Real.sin (s.gamma + dt * (if |s.V| < 1e-9 then 0
              else (L - W * Real.cos s.gamma) / (mass * s.V))) - s.V * Real.sin s.gamma))) := by
        fun_prop
      have := hc.tendsto 0
      simpa using this
    · have hc : Continuous (fun dt : ℝ =>
          dt * (0.5 * ((T - D - W * Real.sin (s.gamma + dt * (if |s.V| < 1e-9 then 0
              else (L - W * Real.cos s.gamma) / (mass * s.V)))) / mass
          - (T - D - W * Real.sin s.gamma) / mass))) := by
        fun_prop
      have := hc.tendsto 0
      simpa using this
    · apply tendsto_mul_of_bounded _
        (0.5 * ((|L| + |W|) / (mass * 1e-9) + (|L| + |W|) / (mass * 1e-9)))
      intro dt _
      have h2 := abs_dgamma_le L W mass (s.V + dt * ((T - D - W * Real.sin s.gamma) / mass))
        (s.gamma + dt * (if |s.V| < 1e-9 then 0
                else (L - W * Real.cos s.gamma) / (mass * s.V))) hmass
      have h1 := abs_dgamma_le L W mass s.V s.gamma hmass
      rw [abs_mul, abs_of_pos (by norm_num : (0 : ℝ) < 0.5)]
      refine mul_le_mul_of_nonneg_left ?_ (by norm_num)
      exact (abs_sub _ _).trans (add_le_add h2 h1)
  · simp [trapezoidalStep, computeDerivatives, AircraftState.lift, h10]
    norm_num
  · simp [trapezoidalStep, computeDerivatives, AircraftState.lift, h10]
    norm_num
  · simp [trapezoidalStep, computeDerivatives, AircraftState.lift, h10]
    norm_num
  · simp [trapezoidalStep, computeDerivatives, AircraftState.lift, h10]
    norm_num

/-- Witness for C7: state `x = 0, z = 0, V = 10, gamma = 0` with `L = 10`, `D = 1`,
`W = 5`, `T = 3`, `mass = 2`; the flight-path-angle component of the step minus the
forward-Euler step tends to `0` with `dt`. -/
theorem trapezoidalStep_sub_euler_tendsto_witness :
    (0 : ℝ) < 2 ∧
    ∃ eg : ℝ → ℝ,
      (∀ dt : ℝ,
        (trapezoidalStep Real.cos Real.sin (AircraftState.lift ⟨0, 0, 10, 0⟩)
            (val 10) (val 1) (val 5) (val 3) (val 2) (val dt)).gamma
          - (val 0 + val dt * (computeDerivatives Real.cos Real.sin
              (AircraftState.lift ⟨0, 0, 10, 0⟩) (val 10) (val 1) (val 5) (val 3)
              (val 2)).dgamma) = val (eg dt)) ∧
      Filter.Tendsto eg (nhds 0) (nhds 0) := by
  refine ⟨by norm_num, ?_⟩
  obtain ⟨⟨_, _, _, eg, h, _, _, _, hg⟩, _⟩ :=
    trapezoidalStep_sub_euler_tendsto ⟨0, 0, 10, 0⟩ 10 1 5 3 2 (by norm_num)
  exact ⟨eg, fun dt => (h dt).2.2.2, hg⟩

/-- C8: for a table of at least two real points with strictly ascending `alpha`, an index
`i` and an `alpha` with `data[i].alpha ≤ alpha ≤ data[i+1].alpha`, `getCL` returns
`CL_i + t*(CL_{i+1} - CL_i)` and `getCD` returns `CD_i + t*(CD_{i+1} - CD_i)` with
`t = (alpha - data[i].alpha)/(data[i+1].alpha - data[i].alpha)`, whichever bracket the
search stops at; in particular at every sampled `alpha` the lookup returns that sample's
`CL` and `CD`. -/
theorem getCL_getCD_bracket (ps : List (DataPoint K))
    (hasc : ps.Pairwise (fun p q => p.alpha < q.alpha))
    (i : ℕ) (hi : i + 1 < ps.length) (alpha : K)
    (hlo : ps[i].alpha ≤ alpha) (hhi : alpha ≤ ps[i + 1].alpha) :
    (AeroDataTable.ofPoints ps).getCL (val alpha)
      = val (ps[i].CL + (alpha - ps[i].alpha) / (ps[i + 1].alpha - ps[i].alpha)
          * (ps[i + 1].CL - ps[i].CL)) ∧
    (AeroDataTable.ofPoints ps).getCD (val alpha)
      = val (ps[i].CD + (alpha - ps[i].alpha) / (ps[i + 1].alpha - ps[i].alpha)
          * (ps[i + 1].CD - ps[i].CD)) ∧
    ∀ (j : ℕ) (hj : j < ps.length),
      (AeroDataTable.ofPoints ps).getCL (val ps[j].alpha) = val ps[j].CL ∧
      (AeroDataTable.ofPoints ps).getCD (val ps[j].alpha) = val ps[j].CD := by
  have hpw := List.pairwise_iff_getElem.mp hasc
  have h0 : 0 < ps.length := by omega
  have key : ∀ (a : K) (m : ℕ) (hm : m + 1 < ps.length), ps[m].alpha ≤ a →
      a ≤ ps[m + 1].alpha →
      (AeroDataTable.ofPoints ps).getCL (val a)
        = val (ps[m].CL + (a - ps[m].alpha) / (ps[m + 1].alpha - ps[m].alpha)
            * (ps[m + 1].CL - ps[m].CL)) ∧
      (AeroDataTable.ofPoints ps).getCD (val a)
        = val (ps[m].CD + (a - ps[m].alpha) / (ps[m + 1].alpha - ps[m].alpha)
            * (ps[m + 1].CD - ps[m].CD)) := by
    intro a m hm h1 h2
    have hfront : ps[0].alpha ≤ a :=
      (AeroDataTable.alpha_le_of_le ps hasc 0 m (by omega) (by omega)).trans h1
    have hback : a ≤ ps[ps.length - 1].alpha :=
      h2.trans (AeroDataTable.alpha_le_of_le ps hasc (m + 1) (ps.length - 1) (by omega)
        (by omega))
    rw [AeroDataTable.getCL_inside ps a h0 hfront hback,
      AeroDataTable.getCD_inside ps a h0 hfront hback]
    exact ⟨AeroDataTable.interpolate_bracket ps hasc _ (fun p => p.CL) (fun _ => rfl) a m hm
        h1 h2,
      AeroDataTable.interpolate_bracket ps hasc _ (fun p => p.CD) (fun _ => rfl) a m hm
        h1 h2⟩
  refine ⟨(key alpha i hi hlo hhi).1, (key alpha i hi hlo hhi).2, ?_⟩
  intro j hj
  by_cases hlast : j + 1 < ps.length
  · have h := key ps[j].alpha j hlast (le_refl _)
      (le_of_lt (hpw j (j + 1) hj hlast (by omega)))
    simpa using h
  · cases j with
    | zero => omega
    | succ m =>
      have hlt : ps[m].alpha < ps[m + 1].alpha := hpw m (m + 1) (by omega) hj (by omega)
      have hne : ps[m + 1].alpha - ps[m].alpha ≠ 0 := sub_ne_zero.mpr (ne_of_gt hlt)
      have h := key ps[m + 1].alpha m hj (le_of_lt hlt) (le_refl _)
      rw [div_self hne] at h
      simpa using h

/-- Witness for C8: the table `(0°, 0.4, 0.025), (10°, 0.8, 0.030), (20°, 1.2, 0.050)` with
the angles of the test in radians (`0`, `0.174533`, `0.349066`) gives `CL = 0.8`,
`CD = 0.030` at `10°` and the midpoint `CL = 0.6`, `CD = 0.0275` at `5°`. -/
theorem getCL_getCD_bracket_witness :
    (AeroDataTable.ofPoints ([⟨0, 0.4, 0.025⟩, ⟨0.174533, 0.8, 0.030⟩,
        ⟨0.349066, 1.2, 0.050⟩] : List (DataPoint ℚ))).getCL (val 0.174533) = val 0.8 ∧
    (AeroDataTable.ofPoints ([⟨0, 0.4, 0.025⟩, ⟨0.174533, 0.8, 0.030⟩,
        ⟨0.349066, 1.2, 0.050⟩] : List (DataPoint ℚ))).getCD (val 0.174533) = val 0.030 ∧
    (AeroDataTable.ofPoints ([⟨0, 0.4, 0.025⟩, ⟨0.174533, 0.8, 0.030⟩,
        ⟨0.349066, 1.2, 0.050⟩] : List (DataPoint ℚ))).getCL (val 0.0872665) = val 0.6 ∧
    (AeroDataTable.ofPoints ([⟨0, 0.4, 0.025⟩, ⟨0.174533, 0.8, 0.030⟩,
        ⟨0.349066, 1.2, 0.050⟩] : List (DataPoint ℚ))).getCD (val 0.0872665) = val 0.0275 := by
  have h := getCL_getCD_bracket
    ([⟨0, 0.4, 0.025⟩, ⟨0.174533, 0.8, 0.030⟩, ⟨0.349066, 1.2, 0.050⟩] : List (DataPoint ℚ))
    (by simp; norm_num) 0 (by simp) 0.0872665 (by simp; norm_num) (by simp; norm_num)
  obtain ⟨h1, h2, h3⟩ := h
  have h4 := h3 1 (by simp)
  refine ⟨h4.1, h4.2, ?_, ?_⟩
  · rw [h1]
    simp
    norm_num
  · rw [h2]
    simp
    norm_num

/-- C9: for a table of at least two real points with strictly ascending `alpha`: below the
first sample `getCL(alpha) = max(0, CL_0 + (CL_1 - CL_0)/(a_1 - a_0) * (alpha - a_0))`;
above the last sample `getCL(alpha) = max(0, CL_last + slope * (alpha - a_last))` with the
slope of the last two samples; hence `getCL(alpha) ≥ 0` strictly outside the sampled range;
and inside the range `getCL` returns the interpolated value unclamped. -/
theorem getCL_extrapolate (ps : List (DataPoint K))
    (hasc : ps.Pairwise (fun p q => p.alpha < q.alpha)) (h2 : 2 ≤ ps.length) (alpha : K) :
    (alpha < ps[0].alpha →
      (AeroDataTable.ofPoints ps).getCL (val alpha)
        = val (max (0 : K) (ps[0].CL + (ps[1].CL - ps[0].CL) / (ps[1].alpha - ps[0].alpha)
            * (alpha - ps[0].alpha)))) ∧
    (ps[ps.length - 1].alpha < alpha →
      (AeroDataTable.ofPoints ps).getCL (val alpha)
        = val (max (0 : K) (ps[ps.length - 1].CL
            + (ps[ps.length - 1].CL - ps[ps.length - 2].CL)
              / (ps[ps.length - 1].alpha - ps[ps.length - 2].alpha)
            * (alpha - ps[ps.length - 1].alpha)))) ∧
    (alpha < ps[0].alpha ∨ ps[ps.length - 1].alpha < alpha →
      ∃ v : K, (AeroDataTable.ofPoints ps).getCL (val alpha) = val v ∧ 0 ≤ v) ∧
    (ps[0].alpha ≤ alpha → alpha ≤ ps[ps.length - 1].alpha →
      (AeroDataTable.ofPoints ps).getCL (val alpha)
        = (AeroDataTable.ofPoints ps).interpolate (val alpha) (fun p => p.CL)) := by
  have h0 : 0 < ps.length := by omega
  have hbelow : alpha < ps[0].alpha →
      (AeroDataTable.ofPoints ps).getCL (val alpha)
        = val (max (0 : K) (ps[0].CL + (ps[1].CL - ps[0].CL) / (ps[1].alpha - ps[0].alpha)
            * (alpha - ps[0].alpha))) := by
    intro h
    have hi := AeroDataTable.interpolate_below ps hasc h2 (fun p => p.CL) (fun p => p.CL)
      (fun _ => rfl) alpha h
    simp only [AeroDataTable.getCL, hi, AeroDataTable.front_ofPoints ps h0,
      AeroDataTable.isEmpty_ofPoints ps h0, max_zero_val]
    simp [DataPoint.lift, h]
  have habove : ps[ps.length - 1].alpha < alpha →
      (AeroDataTable.ofPoints ps).getCL (val alpha)
        = val (max (0 : K) (ps[ps.length - 1].CL
            + (ps[ps.length - 1].CL - ps[ps.length - 2].CL)
              / (ps[ps.length - 1].alpha - ps[ps.length - 2].alpha)
            * (alpha - ps[ps.length - 1].alpha))) := by
    intro h
    have hi := AeroDataTable.interpolate_above ps hasc h2 (fun p => p.CL) (fun p => p.CL)
      (fun _ => rfl) alpha h
    simp only [AeroDataTable.getCL, hi, AeroDataTable.back_ofPoints ps h0,
      AeroDataTable.isEmpty_ofPoints ps h0, max_zero_val]
    simp [DataPoint.lift, h]
  refine ⟨hbelow, habove, ?_, ?_⟩
  · rintro (h | h)
    · exact ⟨_, hbelow h, le_max_left _ _⟩
    · exact ⟨_, habove h, le_max_left _ _⟩
  · intro hlo hhi
    exact AeroDataTable.getCL_inside ps alpha h0 hlo hhi

/-- Witness for C9: on the table `(0, -1, 0.02), (1, 1, 0.03)` the lookup gives `CL = 0` at
`alpha = -1` (the extrapolation `-3` is clamped), `CL = 3` at `alpha = 2` (the
extrapolation is positive and kept), and inside the range, at `alpha = 1/4`, the negative
interpolated value `-1/2` is returned unclamped. -/
theorem getCL_extrapolate_witness :
    (AeroDataTable.ofPoints ([⟨0, -1, 0.02⟩, ⟨1, 1, 0.03⟩] : List (DataPoint ℚ))).getCL
        (val (-1)) = val 0 ∧
    (AeroDataTable.ofPoints ([⟨0, -1, 0.02⟩, ⟨1, 1, 0.03⟩] : List (DataPoint ℚ))).getCL
        (val 2) = val 3 ∧
    (AeroDataTable.ofPoints ([⟨0, -1, 0.02⟩, ⟨1, 1, 0.03⟩] : List (DataPoint ℚ))).getCL
        (val (1 / 4)) = val (-1 / 2) := by
  have hasc : ([⟨0, -1, 0.02⟩, ⟨1, 1, 0.03⟩] : List (DataPoint ℚ)).Pairwise
      (fun p q => p.alpha < q.alpha) := by simp
  refine ⟨?_, ?_, ?_⟩
  · rw [(getCL_extrapolate _ hasc (by simp) (-1)).1 (by simp)]
    simp
    norm_num
  · rw [(getCL_extrapolate _ hasc (by simp) 2).2.1 (by simp)]
    simp
    norm_num
  · rw [(getCL_extrapolate _ hasc (by simp) (1 / 4)).2.2.2 (by norm_num) (by norm_num)]
    rw [AeroDataTable.interpolate_bracket _ hasc _ (fun p => p.CL) (fun _ => rfl) (1 / 4) 0
      (by simp) (by norm_num) (by norm_num)]
    simp
    norm_num

/-- C10 fails as stated in its last clause: on the table `(0, 0.4, 0.02), (1, 0.8, 0.02)`
the two samples have the same `CD`, the extrapolation slope is `0`, and at `alpha = -1` the
clamped value `getCD(-1) = 0.02` is the linear extrapolation that `interpolate` computes. -/
theorem getCD_equals_extrapolation :
    (AeroDataTable.ofPoints ([⟨0, 0.4, 0.02⟩, ⟨1, 0.8, 0.02⟩] : List (DataPoint ℚ))).getCD
        (val (-1)) = val 0.02 ∧
    (AeroDataTable.ofPoints ([⟨0, 0.4, 0.02⟩, ⟨1, 0.8, 0.02⟩] : List (DataPoint ℚ))).interpolate
        (val (-1)) (fun p => p.CD) = val 0.02 ∧
    (AeroDataTable.ofPoints ([⟨0, 0.4, 0.02⟩, ⟨1, 0.8, 0.02⟩] : List (DataPoint ℚ))).getCD
        (val (-1))
      = (AeroDataTable.ofPoints ([⟨0, 0.4, 0.02⟩, ⟨1, 0.8, 0.02⟩] :
          List (DataPoint ℚ))).interpolate (val (-1)) (fun p => p.CD) := by
  have hasc : ([⟨0, 0.4, 0.02⟩, ⟨1, 0.8, 0.02⟩] : List (DataPoint ℚ)).Pairwise
      (fun p q => p.alpha < q.alpha) := by simp
  have h1 := AeroDataTable.getCD_below
    ([⟨0, 0.4, 0.02⟩, ⟨1, 0.8, 0.02⟩] : List (DataPoint ℚ)) (by simp) (-1) (by simp)
  have h2 := AeroDataTable.interpolate_below
    ([⟨0, 0.4, 0.02⟩, ⟨1, 0.8, 0.02⟩] : List (DataPoint ℚ)) hasc (by simp)
    (fun p => p.CD) (fun p => p.CD) (fun _ => rfl) (-1) (by simp)
  have h3 : (AeroDataTable.ofPoints ([⟨0, 0.4, 0.02⟩, ⟨1, 0.8, 0.02⟩] :
      List (DataPoint ℚ))).interpolate (val (-1)) (fun p => p.CD) = val 0.02 := by
    rw [h2]
    simp
  refine ⟨by simpa using h1, h3, ?_⟩
  rw [h3]
  simpa using h1

/-- C10, amended: for a non-empty table of real points (sorted or not), below the first
sample `getCD` returns the first sample's `CD` and above the last sample it returns the last
sample's `CD`; in particular so when `alpha` is below, respectively above, every sampled
`alpha`.  On a strictly ascending table of at least two points this clamped value differs
from the linear extrapolation that `interpolate` computes when the two boundary samples have
different `CD`, and coincides with it when they have the same `CD`. -/
theorem getCD_clamped (ps : List (DataPoint K)) (h0 : 0 < ps.length) (alpha : K) :
    (alpha < ps[0].alpha → (AeroDataTable.ofPoints ps).getCD (val alpha) = val ps[0].CD) ∧
    (¬ alpha < ps[0].alpha → ps[ps.length - 1].alpha < alpha →
      (AeroDataTable.ofPoints ps).getCD (val alpha) = val ps[ps.length - 1].CD) ∧
    ((∀ p ∈ ps, alpha < p.alpha) →
      (AeroDataTable.ofPoints ps).getCD (val alpha) = val ps[0].CD) ∧
    ((∀ p ∈ ps, p.alpha < alpha) →
      (AeroDataTable.ofPoints ps).getCD (val alpha) = val ps[ps.length - 1].CD) ∧
    (∀ (_hasc : ps.Pairwise (fun p q => p.alpha < q.alpha)) (h2 : 2 ≤ ps.length),
      (alpha < ps[0].alpha → ps[1].CD ≠ ps[0].CD →
        (AeroDataTable.ofPoints ps).getCD (val alpha)
          ≠ (AeroDataTable.ofPoints ps).interpolate (val alpha) (fun p => p.CD)) ∧
      (ps[ps.length - 1].alpha < alpha → ps[ps.length - 1].CD ≠ ps[ps.length - 2].CD →
        (AeroDataTable.ofPoints ps).getCD (val alpha)
          ≠ (AeroDataTable.ofPoints ps).interpolate (val alpha) (fun p => p.CD))) ∧
    (∀ (_hasc : ps.Pairwise (fun p q => p.alpha < q.alpha)) (h2 : 2 ≤ ps.length),
      (alpha < ps[0].alpha → ps[1].CD = ps[0].CD →
        (AeroDataTable.ofPoints ps).getCD (val alpha)
          = (AeroDataTable.ofPoints ps).interpolate (val alpha) (fun p => p.CD)) ∧
      (ps[ps.length - 1].alpha < alpha → ps[ps.length - 1].CD = ps[ps.length - 2].CD →
        (AeroDataTable.ofPoints ps).getCD (val alpha)
          = (AeroDataTable.ofPoints ps).interpolate (val alpha) (fun p => p.CD))) := by
  have hbelow : alpha < ps[0].alpha →
      (AeroDataTable.ofPoints ps).getCD (val alpha) = val ps[0].CD := by
    intro h
    simp only [AeroDataTable.getCD, AeroDataTable.front_ofPoints ps h0,
      AeroDataTable.isEmpty_ofPoints ps h0]
    simp [DataPoint.lift, h]
  have habove : ¬ alpha < ps[0].alpha → ps[ps.length - 1].alpha < alpha →
      (AeroDataTable.ofPoints ps).getCD (val alpha) = val ps[ps.length - 1].CD := by
    intro h1 h
    simp only [AeroDataTable.getCD, AeroDataTable.front_ofPoints ps h0,
      AeroDataTable.back_ofPoints ps h0, AeroDataTable.isEmpty_ofPoints ps h0]
    simp [DataPoint.lift, h, h1]
  refine ⟨hbelow, habove, ?_, ?_, ?_, ?_⟩
  · intro h
    exact hbelow (h _ (List.getElem_mem _))
  · intro h
    exact habove (not_lt.mpr (le_of_lt (h _ (List.getElem_mem _))))
      (h _ (List.getElem_mem _))
  rotate_left
  · intro hasc h2
    constructor
    · intro h hcd
      rw [hbelow h, AeroDataTable.interpolate_below ps hasc h2 _ (fun p => p.CD)
        (fun _ => rfl) alpha h, hcd]
      simp
    · intro h hcd
      have hfront : ¬ alpha < ps[0].alpha :=
        not_lt.mpr ((AeroDataTable.alpha_le_of_le ps hasc 0 (ps.length - 1) (by omega)
          (by omega)).trans (le_of_lt h))
      rw [habove hfront h, AeroDataTable.interpolate_above ps hasc h2 _ (fun p => p.CD)
        (fun _ => rfl) alpha h, hcd]
      simp
  · intro hasc h2
    have hpw := List.pairwise_iff_getElem.mp hasc
    constructor
    · intro h hcd
      have h01 : ps[0].alpha < ps[1].alpha := hpw 0 1 (by omega) (by omega) (by omega)
      rw [hbelow h, AeroDataTable.interpolate_below ps hasc h2 _ (fun p => p.CD)
        (fun _ => rfl) alpha h]
      intro heq
      have heq2 := (Double.val_inj_iff _ _).mp heq
      have hz : (ps[1].CD - ps[0].CD) / (ps[1].alpha - ps[0].alpha)
          * (alpha - ps[0].alpha) = 0 := by linarith
      rcases mul_eq_zero.mp hz with h3 | h3
      · rcases div_eq_zero_iff.mp h3 with h4 | h4
        · exact hcd (sub_eq_zero.mp h4)
        · exact (ne_of_gt h01) (sub_eq_zero.mp h4)
      · exact (ne_of_lt h) (sub_eq_zero.mp h3)
    · intro h hcd
      have hlast : ps[ps.length - 2].alpha < ps[ps.length - 1].alpha :=
        hpw (ps.length - 2) (ps.length - 1) (by omega) (by omega) (by omega)
      have hfront : ¬ alpha < ps[0].alpha :=
        not_lt.mpr ((AeroDataTable.alpha_le_of_le ps hasc 0 (ps.length - 1) (by omega)
          (by omega)).trans (le_of_lt h))
      rw [habove hfront h, AeroDataTable.interpolate_above ps hasc h2 _ (fun p => p.CD)
        (fun _ => rfl) alpha h]
      intro heq
      have heq2 := (Double.val_inj_iff _ _).mp heq
      have hz : (ps[ps.length - 1].CD - ps[ps.length - 2].CD)
          / (ps[ps.length - 1].alpha - ps[ps.length - 2].alpha)
          * (alpha - ps[ps.length - 1].alpha) = 0 := by linarith
      rcases mul_eq_zero.mp hz with h3 | h3
      · rcases div_eq_zero_iff.mp h3 with h4 | h4
        · exact hcd (sub_eq_zero.mp h4)
        · exact (ne_of_gt hlast) (sub_eq_zero.mp h4)
      · exact (ne_of_gt h) (sub_eq_zero.mp h3)

/-- Witness for C10: on the table `(0, 0.4, 0.025), (0.174533, 0.8, 0.030),
(0.349066, 1.2, 0.050)` the lookup gives `CD = 0.025` at `alpha = -1` and `CD = 0.050` at
`alpha = 1`, and at `alpha = -1` this is not the value that `interpolate` extrapolates. -/
theorem getCD_clamped_witness :
    (AeroDataTable.ofPoints ([⟨0, 0.4, 0.025⟩, ⟨0.174533, 0.8, 0.030⟩,
        ⟨0.349066, 1.2, 0.050⟩] : List (DataPoint ℚ))).getCD (val (-1)) = val 0.025 ∧
    (AeroDataTable.ofPoints ([⟨0, 0.4, 0.025⟩, ⟨0.174533, 0.8, 0.030⟩,
        ⟨0.349066, 1.2, 0.050⟩] : List (DataPoint ℚ))).getCD (val 1) = val 0.050 ∧
    (AeroDataTable.ofPoints ([⟨0, 0.4, 0.025⟩, ⟨0.174533, 0.8, 0.030⟩,
        ⟨0.349066, 1.2, 0.050⟩] : List (DataPoint ℚ))).getCD (val (-1))
      ≠ (AeroDataTable.ofPoints ([⟨0, 0.4, 0.025⟩, ⟨0.174533, 0.8, 0.030⟩,
        ⟨0.349066, 1.2, 0.050⟩] : List (DataPoint ℚ))).interpolate (val (-1))
          (fun p => p.CD) := by
  have hasc : ([⟨0, 0.4, 0.025⟩, ⟨0.174533, 0.8, 0.030⟩, ⟨0.349066, 1.2, 0.050⟩] :
      List (DataPoint ℚ)).Pairwise (fun p q => p.alpha < q.alpha) := by
    simp
    norm_num
  refine ⟨?_, ?_, ?_⟩
  · exact (getCD_clamped _ (by simp) (-1)).1 (by simp)
  · exact (getCD_clamped _ (by simp) 1).2.1 (by simp) (by simp; norm_num)
  · exact ((getCD_clamped _ (by simp) (-1)).2.2.2.2.1 hasc (by simp)).1 (by simp)
      (by simp; norm_num)

/-- C11 fails as stated for `getCL`: on the one-point table `(0, -1, 0.02)` the query
`alpha = 1` lies outside the range `[0, 0]`, so `getCL` clamps the point's `CL = -1` to `0`. -/
theorem getCL_single_point_counterexample :
    (AeroDataTable.ofPoints ([⟨0, -1, 0.02⟩] : List (DataPoint ℚ))).getCL (val 1) = val 0 ∧
    (AeroDataTable.ofPoints ([⟨0, -1, 0.02⟩] : List (DataPoint ℚ))).getCL (val 1)
      ≠ val (-1) := by
  constructor
  · simp [AeroDataTable.getCL, AeroDataTable.interpolate, AeroDataTable.ofPoints,
      AeroDataTable.front, AeroDataTable.back, AeroDataTable.nth, DataPoint.lift,
      max_val_val]
    norm_num
  · simp [AeroDataTable.getCL, AeroDataTable.interpolate, AeroDataTable.ofPoints,
      AeroDataTable.front, AeroDataTable.back, AeroDataTable.nth, DataPoint.lift,
      max_val_val]
    norm_num

/-- C11, amended: on a table holding exactly one real point `(a, cl, cd)`, `interpolate`
returns the point's value for every query, `getCD(alpha) = cd` for every `alpha`, and
`getCL(alpha) = cl` when `alpha = a` and `max(0, cl)` when `alpha ≠ a`; so
`getCL(alpha) = cl` for every `alpha` exactly when `cl ≥ 0` or `alpha = a`. -/
theorem getCL_getCD_single_point (p : DataPoint K) (alpha : K) :
    (∀ (q : Double K) (getValue : DataPoint (Double K) → Double K),
      (AeroDataTable.ofPoints [p]).interpolate q getValue = getValue p.lift) ∧
    (AeroDataTable.ofPoints [p]).getCD (val alpha) = val p.CD ∧
    (AeroDataTable.ofPoints [p]).getCL (val alpha)
      = val (if alpha = p.alpha then p.CL else max 0 p.CL) ∧
    (0 ≤ p.CL → (AeroDataTable.ofPoints [p]).getCL (val alpha) = val p.CL) := by
  have hint : ∀ (q : Double K) (getValue : DataPoint (Double K) → Double K),
      (AeroDataTable.ofPoints [p]).interpolate q getValue = getValue p.lift := by
    intro q getValue
    simp [AeroDataTable.interpolate, AeroDataTable.ofPoints, AeroDataTable.front,
      AeroDataTable.nth]
  have hcl : (AeroDataTable.ofPoints [p]).getCL (val alpha)
      = val (if alpha = p.alpha then p.CL else max 0 p.CL) := by
    simp only [AeroDataTable.getCL, hint]
    simp only [AeroDataTable.ofPoints, AeroDataTable.front, AeroDataTable.back,
      AeroDataTable.nth, DataPoint.lift, List.map, List.isEmpty, List.length, List.getD,
      List.get?, Option.getD, max_zero_val]
    by_cases h : alpha = p.alpha
    · simp [h]
    · rcases lt_or_gt_of_ne h with h1 | h1
      · simp [h, h1]
      · simp [h, h1]
  refine ⟨hint, ?_, hcl, ?_⟩
  · simp only [AeroDataTable.getCD, hint]
    simp only [AeroDataTable.ofPoints, AeroDataTable.front, AeroDataTable.back,
      AeroDataTable.nth, DataPoint.lift, List.map, List.isEmpty, List.length, List.getD,
      List.get?, Option.getD]
    by_cases h1 : alpha < p.alpha
    · simp [h1]
    · by_cases h2 : p.alpha < alpha
      · simp [h1, h2]
      · simp [h1, h2]
  · intro h0
    rw [hcl]
    by_cases h : alpha = p.alpha
    · simp [h]
    · simp [h, max_eq_right h0]

/-- Witness for C11: the one-point table `(0, 0.4, 0.025)` queried at `alpha = 1` returns
`CL = 0.4` and `CD = 0.025`. -/
theorem getCL_getCD_single_point_witness :
    (AeroDataTable.ofPoints ([⟨0, 0.4, 0.025⟩] : List (DataPoint ℚ))).getCL (val 1)
      = val 0.4 ∧
    (AeroDataTable.ofPoints ([⟨0, 0.4, 0.025⟩] : List (DataPoint ℚ))).getCD (val 1)
      = val 0.025 :=
  ⟨(getCL_getCD_single_point ⟨0, 0.4, 0.025⟩ 1).2.2.2 (by norm_num),
   (getCL_getCD_single_point ⟨0, 0.4, 0.025⟩ 1).2.1⟩

/-- C12: for the empty table `isEmpty()` is true, `getMinAlpha() = getMaxAlpha() = 0`, and
for every `alpha` (any double) `getCL(alpha) = 0` and `getCD(alpha) = 0`. -/
theorem empty_table (alpha : Double K) :
    (AeroDataTable.mk ([] : List (DataPoint (Double K)))).isEmpty = true ∧
    (AeroDataTable.mk ([] : List (DataPoint (Double K)))).getMinAlpha = val 0 ∧
    (AeroDataTable.mk ([] : List (DataPoint (Double K)))).getMaxAlpha = val 0 ∧
    (AeroDataTable.mk ([] : List (DataPoint (Double K)))).getCL alpha = val 0 ∧
    (AeroDataTable.mk ([] : List (DataPoint (Double K)))).getCD alpha = val 0 := by
  refine ⟨rfl, ?_, ?_, ?_, ?_⟩
  · simp [AeroDataTable.getMinAlpha]
    norm_num
  · simp [AeroDataTable.getMaxAlpha]
    norm_num
  · simp [AeroDataTable.getCL, AeroDataTable.interpolate]
    norm_num
  · simp [AeroDataTable.getCD, AeroDataTable.interpolate]
    norm_num

/-- In exact arithmetic, for real inputs with `mass ≠ 0`, every division that
`computeDerivatives` evaluates has a nonzero denominator, in the predictor pass and in the
corrector pass of `trapezoidalStep`: the divisor `mass` is nonzero, and `mass * V` is a
divisor only when `|V| ≥ 1e-9`, where the exact product is nonzero.  So the derivatives at
any real state are real numbers, the predicted state is a real state, and the step returns
a real state. -/
theorem trapezoidalStep_no_zero_divisor (s : AircraftState ℝ) (L D W T mass dt : ℝ)
    (hmass : mass ≠ 0) :
    (∀ u : AircraftState ℝ,
      (¬ |u.V| < 1e-9 → mass * u.V ≠ 0) ∧
      ∃ dx dz dV dgamma : ℝ,
        computeDerivatives Real.cos Real.sin u.lift (val L) (val D) (val W) (val T) (val mass)
          = ⟨val dx, val dz, val dV, val dgamma⟩) ∧
    (∃ u : AircraftState ℝ,
      (⟨s.lift.x + val dt * (computeDerivatives Real.cos Real.sin s.lift
            (val L) (val D) (val W) (val T) (val mass)).dx,
        s.lift.z + val dt * (computeDerivatives Real.cos Real.sin s.lift
            (val L) (val D) (val W) (val T) (val mass)).dz,
        s.lift.V + val dt * (computeDerivatives Real.cos Real.sin s.lift
            (val L) (val D) (val W) (val T) (val mass)).dV,
        s.lift.gamma + val dt * (computeDerivatives Real.cos Real.sin s.lift
            (val L) (val D) (val W) (val T) (val mass)).dgamma⟩ : AircraftState (Double ℝ))
        = u.lift) ∧
    (∃ next : AircraftState ℝ,
      trapezoidalStep Real.cos Real.sin s.lift (val L) (val D) (val W) (val T) (val mass)
        (val dt) = next.lift) := by
  refine ⟨?_, ?_, ?_⟩
  · intro u
    refine ⟨fun h => mul_ne_zero hmass (ne_zero_of_not_small h), ?_⟩
    exact ⟨_, _, _, _, computeDerivatives_lift Real.cos Real.sin u L D W T mass hmass⟩
  · rw [computeDerivatives_lift Real.cos Real.sin s L D W T mass hmass]
    exact ⟨⟨_, _, _, _⟩, rfl⟩
  · rw [trapezoidalStep_lift Real.cos Real.sin s L D W T mass dt hmass]
    exact ⟨⟨_, _, _, _⟩, rfl⟩

/-- A number of magnitude above half the smallest positive double is not flushed to zero. -/
theorem flushUnderflow_ne_zero (x : K) (h : 1 / 2 ^ 1075 < |x|) : flushUnderflow x ≠ 0 := by
  rw [flushUnderflow, if_neg (not_le.mpr h)]
  intro hx
  rw [hx, abs_zero] at h
  exact absurd h (not_lt.mpr (by positivity))

/-- C17 fails as stated: `mass ≠ 0` does not keep the rounded product `mass * V` from being
zero.  At `mass = 2^-1074`, the smallest positive double, and `V = 2^-10`, which passes the
guard, the product `2^-1084` underflows to `0`, so `computeDerivatives` divides by zero and
the flight-path angle of the step is undefined. -/
theorem divisor_underflows :
    (1 / 2 ^ 1074 : ℝ) ≠ 0 ∧ ¬ |(1 / 2 ^ 10 : ℝ)| < 1e-9 ∧
    flushUnderflow ((1 / 2 ^ 1074 : ℝ) * (1 / 2 ^ 10)) = 0 ∧
    (computeDerivativesRounded flushUnderflow Real.cos Real.sin
        (AircraftState.lift ⟨0, 0, 1 / 2 ^ 10, 0⟩) (val 1) (val 0) (val 0) (val 0)
        (val (1 / 2 ^ 1074))).dgamma = undef ∧
    (trapezoidalStepRounded flushUnderflow Real.cos Real.sin
        (AircraftState.lift ⟨0, 0, 1 / 2 ^ 10, 0⟩) (val 1) (val 0) (val 0) (val 0)
        (val (1 / 2 ^ 1074)) (val 1)).gamma = undef := by
  have hm : (1 / 2 ^ 1074 : ℝ) ≠ 0 := by positivity
  have hV : ¬ |(1 / 2 ^ 10 : ℝ)| < 1e-9 := by
    rw [abs_of_pos (by positivity)]
    norm_num
  have hprod : flushUnderflow ((1 / 2 ^ 1074 : ℝ) * (1 / 2 ^ 10)) = 0 := by
    have hle : |(1 / 2 ^ 1074 : ℝ) * (1 / 2 ^ 10)| ≤ 1 / 2 ^ 1075 := by
      rw [abs_of_pos (by positivity)]
      have h1 : (1 / 2 ^ 1075 : ℝ) = 1 / 2 ^ 1074 * (1 / 2 ^ 1) := by
        rw [show (1075 : ℕ) = 1074 + 1 from rfl, pow_add]
        field_simp
      rw [h1]
      exact mul_le_mul_of_nonneg_left (by norm_num) (by positivity)
    rw [flushUnderflow, if_pos hle]
  have hd : (computeDerivativesRounded flushUnderflow Real.cos Real.sin
      (AircraftState.lift ⟨0, 0, 1 / 2 ^ 10, 0⟩) (val 1) (val 0) (val 0) (val 0)
      (val (1 / 2 ^ 1074))).dgamma = undef := by
    simp only [computeDerivativesRounded, AircraftState.lift, Double.map_val,
      Double.val_mul_val, Double.val_sub_val, Double.val_div_val, Double.abs_val,
      Double.ofScientific_eq, Double.val_lt_val, hV, if_false, hprod, if_true,
      Double.map_undef]
  refine ⟨hm, hV, hprod, hd, ?_⟩
  simp only [trapezoidalStepRounded, hd, Double.mul_undef, Double.map_undef,
    Double.undef_add, Double.add_undef]

/-- C17, amended: when every arithmetic result is rounded by a rounding `fl` that sends no
number of magnitude above `2^-1075` to zero, as rounding to a double does, and the mass has
at least the magnitude `2^-1022` of the smallest normal double, every division that
`computeDerivatives` evaluates has a nonzero denominator, in the predictor pass and in the
corrector pass of `trapezoidalStep`: the divisor `mass` is nonzero, and the rounded product
`mass * V` is a divisor only when `|V| ≥ 1e-9`, where it is nonzero.  So the derivatives
at every real state are numbers, the predicted state is a state of numbers and so is the
step.  In exact arithmetic the same holds for every `mass ≠ 0`. -/
theorem trapezoidalStepRounded_no_zero_divisor (fl cosf sinf : K → K)
    (hfl : ∀ x : K, 1 / 2 ^ 1075 < |x| → fl x ≠ 0) (s : AircraftState K)
    (L D W T mass dt : K) (hmass : 1 / 2 ^ 1022 ≤ |mass|) :
    mass ≠ 0 ∧
    (∀ u : AircraftState K,
      (¬ |u.V| < 1e-9 → fl (mass * u.V) ≠ 0) ∧
      ∃ dx dz dV dgamma : K,
        computeDerivativesRounded fl cosf sinf u.lift (val L) (val D) (val W) (val T)
          (val mass) = ⟨val dx, val dz, val dV, val dgamma⟩) ∧
    (∃ u : AircraftState K,
      (⟨(s.lift.x + (val dt * (computeDerivativesRounded fl cosf sinf s.lift
            (val L) (val D) (val W) (val T) (val mass)).dx).map fl).map fl,
        (s.lift.z + (val dt * (computeDerivativesRounded fl cosf sinf s.lift
            (val L) (val D) (val W) (val T) (val mass)).dz).map fl).map fl,
        (s.lift.V + (val dt * (computeDerivativesRounded fl cosf sinf s.lift
            (val L) (val D) (val W) (val T) (val mass)).dV).map fl).map fl,
        (s.lift.gamma + (val dt * (computeDerivativesRounded fl cosf sinf s.lift
            (val L) (val D) (val W) (val T) (val mass)).dgamma).map fl).map fl⟩ :
          AircraftState (Double K)) = u.lift) ∧
    (∃ next : AircraftState K,
      trapezoidalStepRounded fl cosf sinf s.lift (val L) (val D) (val W) (val T) (val mass)
        (val dt) = next.lift) ∧
    (∀ m : K, m ≠ 0 →
      (∀ u : AircraftState K,
        (¬ |u.V| < 1e-9 → m * u.V ≠ 0) ∧
        ∃ dx dz dV dgamma : K,
          computeDerivatives cosf sinf u.lift (val L) (val D) (val W) (val T) (val m)
            = ⟨val dx, val dz, val dV, val dgamma⟩) ∧
      ∃ next : AircraftState K,
        trapezoidalStep cosf sinf s.lift (val L) (val D) (val W) (val T) (val m) (val dt)
          = next.lift) := by
  have hpos : (0 : K) < 1 / 2 ^ 1022 := by positivity
  have hm : mass ≠ 0 := abs_pos.mp (lt_of_lt_of_le hpos hmass)
  obtain ⟨hstar, hnext⟩ := trapezoidalStepRounded_lift fl cosf sinf hfl s L D W T mass dt hmass
  refine ⟨hm, ?_, hstar, hnext, ?_⟩
  · intro u
    exact ⟨fun hV => hfl _ (underflow_bound_lt hmass hV),
      computeDerivativesRounded_lift fl cosf sinf hfl u L D W T mass hmass⟩
  · intro m hm0
    constructor
    · intro u
      exact ⟨fun hV => mul_ne_zero hm0 (ne_zero_of_not_small hV),
        ⟨_, _, _, _, computeDerivatives_lift cosf sinf u L D W T m hm0⟩⟩
    · rw [trapezoidalStep_lift cosf sinf s L D W T m dt hm0]
      exact ⟨⟨_, _, _, _⟩, rfl⟩

/-- Witness for C17: with underflow to zero as the only rounding, the state `x = 0, z = 0,
V = 2^-10, gamma = 0` of the counterexample with `L = 1`, `D = W = T = 0`, `dt = 1` and the
mass `2^-1022`, the smallest normal double: the step is a state of numbers. -/
theorem trapezoidalStepRounded_no_zero_divisor_witness :
    (1 / 2 ^ 1022 : ℝ) ≤ |(1 / 2 ^ 1022 : ℝ)| ∧
    ∃ next : AircraftState ℝ,
      trapezoidalStepRounded flushUnderflow Real.cos Real.sin
        (AircraftState.lift ⟨0, 0, 1 / 2 ^ 10, 0⟩) (val 1) (val 0) (val 0) (val 0)
        (val (1 / 2 ^ 1022)) (val 1) = next.lift :=
  ⟨le_abs_self _,
   (trapezoidalStepRounded_no_zero_divisor flushUnderflow Real.cos Real.sin
      flushUnderflow_ne_zero ⟨0, 0, 1 / 2 ^ 10, 0⟩ 1 0 0 0 (1 / 2 ^ 1022) 1
      (le_abs_self _)).2.2.2.1⟩

/-- C19: for a table of at least two real points (sorted or not) and every `alpha` with
`data.front().alpha ≤ alpha ≤ data.back().alpha`, the bracket search of `interpolate`
returns inside the loop, at the first index `i` with
`data[i].alpha ≤ alpha ≤ data[i+1].alpha`; it never falls out of the loop, so the final
`return getValue(data.back())` is not reached. -/
theorem bracket_search_finds (ps : List (DataPoint K)) (h2 : 2 ≤ ps.length) (alpha : K)
    (hlo : ps[0].alpha ≤ alpha) (hhi : alpha ≤ ps[ps.length - 1].alpha)
    (getValue : DataPoint (Double K) → Double K) :
    ∃ (i : ℕ) (_ : i + 1 < ps.length),
      ps[i].alpha ≤ alpha ∧ alpha ≤ ps[i + 1].alpha ∧
      (∀ (j : ℕ) (_ : j < i), ¬ (ps[j].alpha ≤ alpha ∧ alpha ≤ ps[j + 1].alpha)) ∧
      (AeroDataTable.ofPoints ps).interpolateLoop (val alpha) getValue (ps.length - 1) 0
        = some (getValue ps[i].lift
            + (val alpha - val ps[i].alpha) / (val ps[i + 1].alpha - val ps[i].alpha)
              * (getValue ps[i + 1].lift - getValue ps[i].lift)) ∧
      (AeroDataTable.ofPoints ps).interpolateLoop (val alpha) getValue (ps.length - 1) 0
        ≠ none ∧
      (AeroDataTable.ofPoints ps).interpolate (val alpha) getValue
        = getValue ps[i].lift
            + (val alpha - val ps[i].alpha) / (val ps[i + 1].alpha - val ps[i].alpha)
              * (getValue ps[i + 1].lift - getValue ps[i].lift) := by
  obtain ⟨i, hi, h3, h4, h5, h6, h7⟩ :=
    AeroDataTable.first_bracket ps h2 alpha hlo hhi getValue
  refine ⟨i, hi, h3, h4, h5, h6, ?_, h7⟩
  rw [h6]
  simp

/-- Witness for C19: on the unsorted table with angles `0, 3, 1, 2` the query `alpha = 2`
lies between the first and the last angle, and the search over the three brackets does not
fall out of the loop. -/
theorem bracket_search_finds_witness :
    (AeroDataTable.ofPoints ([⟨0, 0.1, 0.01⟩, ⟨3, 0.2, 0.02⟩, ⟨1, 0.3, 0.03⟩,
        ⟨2, 0.4, 0.04⟩] : List (DataPoint ℚ))).interpolateLoop (val 2)
          (fun p => p.CL) 3 0 ≠ none := by
  obtain ⟨_, _, _, _, _, _, hne, _⟩ := bracket_search_finds
    ([⟨0, 0.1, 0.01⟩, ⟨3, 0.2, 0.02⟩, ⟨1, 0.3, 0.03⟩, ⟨2, 0.4, 0.04⟩] : List (DataPoint ℚ))
    (by simp) 2 (by norm_num) (by norm_num) (fun p => p.CL)
  exact hne

/-- C18: on a table of real points with strictly ascending `alpha`, every divisor that
`interpolate` can form (the difference of two neighbouring angles, in the two extrapolation
slopes and in the fractional position `t`) is nonzero, and the result is a real number for
every query; and on any table of real points, sorted or not, an undefined result, that is
a zero divisor, can only arise when two adjacent points share their `alpha`.  Here
`getValue` is any accessor returning a real number on real points, such as `CL` or `CD`. -/
theorem interpolate_no_zero_divisor (ps : List (DataPoint K)) (alpha : K)
    (getValue : DataPoint (Double K) → Double K) (f : DataPoint K → K)
    (hf : ∀ p : DataPoint K, getValue p.lift = val (f p)) :
    (ps.Pairwise (fun p q => p.alpha < q.alpha) →
      (∀ (i : ℕ) (_ : i + 1 < ps.length), ps[i + 1].alpha - ps[i].alpha ≠ 0) ∧
      ∃ v : K, (AeroDataTable.ofPoints ps).interpolate (val alpha) getValue = val v) ∧
    ((AeroDataTable.ofPoints ps).interpolate (val alpha) getValue = undef →
      ∃ (i : ℕ) (_ : i + 1 < ps.length), ps[i].alpha = ps[i + 1].alpha) := by
  refine ⟨?_, AeroDataTable.interpolate_undef ps alpha getValue f hf⟩
  intro hasc
  have hpw := List.pairwise_iff_getElem.mp hasc
  have hadj : ∀ (i : ℕ) (_ : i + 1 < ps.length), ps[i + 1].alpha - ps[i].alpha ≠ 0 :=
    fun i hi => sub_ne_zero.mpr (ne_of_gt (hpw i (i + 1) (by omega) hi (by omega)))
  refine ⟨hadj, ?_⟩
  cases hres : (AeroDataTable.ofPoints ps).interpolate (val alpha) getValue with
  | val v => exact ⟨v, rfl⟩
  | undef =>
    obtain ⟨i, hi, heq⟩ := AeroDataTable.interpolate_undef ps alpha getValue f hf hres
    exact absurd (sub_eq_zero.mpr heq.symm) (hadj i hi)

/-- Witness for C18: on the table `(0, 0.4, 0.025), (0.174533, 0.8, 0.030),
(0.349066, 1.2, 0.050)` the lookups of `CL` below, inside and above the range are real
numbers. -/
theorem interpolate_no_zero_divisor_witness :
    (∃ v : ℚ, (AeroDataTable.ofPoints ([⟨0, 0.4, 0.025⟩, ⟨0.174533, 0.8, 0.030⟩,
        ⟨0.349066, 1.2, 0.050⟩] : List (DataPoint ℚ))).interpolate (val (-1))
          (fun p => p.CL) = val v) ∧
    (∃ v : ℚ, (AeroDataTable.ofPoints ([⟨0, 0.4, 0.025⟩, ⟨0.174533, 0.8, 0.030⟩,
        ⟨0.349066, 1.2, 0.050⟩] : List (DataPoint ℚ))).interpolate (val 0.1)
          (fun p => p.CL) = val v) ∧
    (∃ v : ℚ, (AeroDataTable.ofPoints ([⟨0, 0.4, 0.025⟩, ⟨0.174533, 0.8, 0.030⟩,
        ⟨0.349066, 1.2, 0.050⟩] : List (DataPoint ℚ))).interpolate (val 1)
          (fun p => p.CL) = val v) := by
  have hasc : ([⟨0, 0.4, 0.025⟩, ⟨0.174533, 0.8, 0.030⟩, ⟨0.349066, 1.2, 0.050⟩] :
      List (DataPoint ℚ)).Pairwise (fun p q => p.alpha < q.alpha) := by
    simp
    norm_num
  exact ⟨((interpolate_no_zero_divisor _ (-1) _ (fun p => p.CL) (fun _ => rfl)).1 hasc).2,
    ((interpolate_no_zero_divisor _ 0.1 _ (fun p => p.CL) (fun _ => rfl)).1 hasc).2,
    ((interpolate_no_zero_divisor _ 1 _ (fun p => p.CL) (fun _ => rfl)).1 hasc).2⟩

/-- With two adjacent points sharing their `alpha` a zero divisor does arise: on the table
`(0, 1, 2), (0, 3, 4)` the lookup of `CL` at `alpha = 0` is undefined. -/
theorem interpolate_duplicate_alpha :
    (AeroDataTable.ofPoints ([⟨0, 1, 2⟩, ⟨0, 3, 4⟩] : List (DataPoint ℚ))).interpolate (val 0)
      (fun p => p.CL) = undef := by
  simp [AeroDataTable.interpolate, AeroDataTable.interpolateLoop, AeroDataTable.ofPoints,
    AeroDataTable.front, AeroDataTable.back, AeroDataTable.nth, DataPoint.lift]

/-- C20: on a non-empty table of real points with strictly ascending `alpha`, for every
query `alpha`, inside or outside the sampled range, `getCD(alpha)` is a real number between
the smallest and the largest `CD` of the samples: some sample has a `CD` at most it, some
sample has a `CD` at least it, and it obeys every lower and upper bound of the samples'
`CD`; inside a bracket it lies between the `CD` of the two bracketing samples. -/
theorem getCD_between (ps : List (DataPoint K))
    (hasc : ps.Pairwise (fun p q => p.alpha < q.alpha)) (h0 : 0 < ps.length) (alpha : K) :
    (∃ v : K, (AeroDataTable.ofPoints ps).getCD (val alpha) = val v ∧
      (∃ p ∈ ps, p.CD ≤ v) ∧ (∃ q ∈ ps, v ≤ q.CD) ∧
      (∀ lo hi : K, (∀ p ∈ ps, lo ≤ p.CD ∧ p.CD ≤ hi) → lo ≤ v ∧ v ≤ hi)) ∧
    (∀ (i : ℕ) (_ : i + 1 < ps.length), ps[i].alpha ≤ alpha → alpha ≤ ps[i + 1].alpha →
      ∃ v : K, (AeroDataTable.ofPoints ps).getCD (val alpha) = val v ∧
        min ps[i].CD ps[i + 1].CD ≤ v ∧ v ≤ max ps[i].CD ps[i + 1].CD) := by
  have hbr := fun (i : ℕ) (hi : i + 1 < ps.length) (hlo : ps[i].alpha ≤ alpha)
      (hhi : alpha ≤ ps[i + 1].alpha) =>
    AeroDataTable.getCD_bracket_between ps hasc alpha i hi hlo hhi
  have hmain : ∃ v : K, (AeroDataTable.ofPoints ps).getCD (val alpha) = val v ∧
      (∃ p ∈ ps, p.CD ≤ v) ∧ (∃ q ∈ ps, v ≤ q.CD) := by
    by_cases hlt : alpha < ps[0].alpha
    · exact ⟨_, AeroDataTable.getCD_below ps h0 alpha hlt,
        ⟨_, List.getElem_mem _, le_refl _⟩, ⟨_, List.getElem_mem _, le_refl _⟩⟩
    · by_cases hgt : ps[ps.length - 1].alpha < alpha
      · exact ⟨_, AeroDataTable.getCD_above ps h0 alpha hlt hgt,
          ⟨_, List.getElem_mem _, le_refl _⟩, ⟨_, List.getElem_mem _, le_refl _⟩⟩
      · rcases Nat.lt_or_ge ps.length 2 with hlen | h2
        · match ps, h0, hlen, hlt, hgt with
          | [p], _, _, hlt, hgt =>
            refine ⟨p.CD, ?_, ⟨p, by simp, le_refl _⟩, ⟨p, by simp, le_refl _⟩⟩
            rw [AeroDataTable.getCD_inside [p] alpha (by simp) (not_lt.mp hlt)
              (not_lt.mp hgt), AeroDataTable.interpolate_single]
            rfl
        · obtain ⟨i, hi, h3, h4⟩ := AeroDataTable.exists_bracket ps alpha (ps.length - 1)
            (by omega) (by omega) (not_lt.mp hlt) (not_lt.mp hgt)
          obtain ⟨v, hv, hmin, hmax⟩ := hbr i hi h3 h4
          refine ⟨v, hv, ?_, ?_⟩
          · rcases le_total ps[i].CD ps[i + 1].CD with h | h
            · exact ⟨_, List.getElem_mem _, by rwa [min_eq_left h] at hmin⟩
            · exact ⟨_, List.getElem_mem _, by rwa [min_eq_right h] at hmin⟩
          · rcases le_total ps[i].CD ps[i + 1].CD with h | h
            · exact ⟨_, List.getElem_mem _, by rwa [max_eq_right h] at hmax⟩
            · exact ⟨_, List.getElem_mem _, by rwa [max_eq_left h] at hmax⟩
  refine ⟨?_, hbr⟩
  obtain ⟨v, hv, ⟨p, hp, hpv⟩, ⟨q, hq, hqv⟩⟩ := hmain
  exact ⟨v, hv, ⟨p, hp, hpv⟩, ⟨q, hq, hqv⟩,
    fun lo hi hb => ⟨(hb p hp).1.trans hpv, hqv.trans (hb q hq).2⟩⟩

/-- Witness for C20: on the table `(0, 0.4, 0.025), (0.174533, 0.8, 0.030),
(0.349066, 1.2, 0.050)` the lookup of `CD` at `alpha = 0.1` is a real number between
`0.025` and `0.030`. -/
theorem getCD_between_witness :
    ∃ v : ℚ, (AeroDataTable.ofPoints ([⟨0, 0.4, 0.025⟩, ⟨0.174533, 0.8, 0.030⟩,
        ⟨0.349066, 1.2, 0.050⟩] : List (DataPoint ℚ))).getCD (val 0.1) = val v ∧
      0.025 ≤ v ∧ v ≤ 0.030 := by
  have hasc : ([⟨0, 0.4, 0.025⟩, ⟨0.174533, 0.8, 0.030⟩, ⟨0.349066, 1.2, 0.050⟩] :
      List (DataPoint ℚ)).Pairwise (fun p q => p.alpha < q.alpha) := by
    simp
    norm_num
  obtain ⟨v, hv, hmin, hmax⟩ := (getCD_between _ hasc (by simp) 0.1).2 0 (by simp)
    (by norm_num) (by norm_num)
  refine ⟨v, hv, ?_, ?_⟩
  · have h : min (0.025 : ℚ) 0.030 = 0.025 := min_eq_left (by norm_num)
    simpa [h] using hmin
  · have h : max (0.025 : ℚ) 0.030 = 0.030 := max_eq_right (by norm_num)
    simpa [h] using hmax

/-- C16: on real inputs the scalar force and coefficient functions equal their closed
forms: `calcLift = 0.5*rho*V^2*S*CL`, `calcDrag = 0.5*rho*V^2*S*CD`, `calcWeight = m*g`,
`calcThrust = throttle*maxT`, `calcCL = slope*alpha` and `calcCD = CD0 + k*CL^2`. -/
theorem scalar_functions_closed_form (rho V S CL CD m g throttle maxT alpha slope CD0 k : K) :
    calcLift (val rho) (val V) (val S) (val CL) = val (0.5 * rho * V ^ 2 * S * CL) ∧
    calcDrag (val rho) (val V) (val S) (val CD) = val (0.5 * rho * V ^ 2 * S * CD) ∧
    calcWeight (val m) (val g) = val (m * g) ∧
    calcThrust (val throttle) (val maxT) = val (throttle * maxT) ∧
    calcCL (val alpha) (val slope) = val (slope * alpha) ∧
    calcCD (val CL) (val CD0) (val k) = val (CD0 + k * CL ^ 2) := by
  refine ⟨?_, ?_, rfl, rfl, rfl, ?_⟩
  · simp only [calcLift, Double.ofScientific_eq, Double.val_mul_val, Double.val_inj_iff]
    ring
  · simp only [calcDrag, Double.ofScientific_eq, Double.val_mul_val, Double.val_inj_iff]
    ring
  · simp only [calcCD, Double.val_mul_val, Double.val_add_val, Double.val_inj_iff]
    ring

/-- C13 fails as stated: the readable source with the two lines `0,1,2` and `x,1,2` makes
`std::stod` throw on the field `x` of its second line, so `loadFromCSV` is left by an
exception that is neither the one for an unreadable source nor the one for zero rows. -/
theorem loadFromCSV_third_failure :
    AeroDataTable.loadFromCSV (stodDecimal : List Char → Option ℚ)
        (some [['0', ',', '1', ',', '2'], ['x', ',', '1', ',', '2']])
      = .error .stodFailed ∧
    AeroDataTable.loadFromCSV (stodDecimal : List Char → Option ℚ)
        (some [['0', ',', '1', ',', '2'], ['x', ',', '1', ',', '2']])
      ≠ .error .failedToOpen ∧
    AeroDataTable.loadFromCSV (stodDecimal : List Char → Option ℚ)
        (some [['0', ',', '1', ',', '2'], ['x', ',', '1', ',', '2']])
      ≠ .error .noValidData := by
  have h : AeroDataTable.loadFromCSV (stodDecimal : List Char → Option ℚ)
      (some [['0', ',', '1', ',', '2'], ['x', ',', '1', ',', '2']]) = .error .stodFailed := by
    apply loadFromCSV_throw
    refine ⟨['x', ',', '1', ',', '2'], by decide, ?_⟩
    rw [parseLine_threw_iff]
    exact ⟨['x'], by decide, by decide⟩
  rw [h]
  exact ⟨rfl, by simp, by simp⟩

/-- C13, amended: `loadFromCSV` has exactly four outcomes.  It fails with the error for an
unreadable source if and only if the source cannot be opened; it is left by the exception of
`std::stod` if and only if the source opens and, on some line handed to the parser, one of
the first three fields does not convert; it fails with the error for zero rows if and only
if the source opens, all those fields convert and no row is parsed; and it returns a table
if and only if the source opens, all those fields convert and some row is parsed, and then
the table is not empty.  When `std::stod` converts every token, only the first, third and
fourth outcome remain. -/
theorem loadFromCSV_outcomes (stod : List Char → Option K)
    (file : Option (List (List Char))) :
    (AeroDataTable.loadFromCSV stod file = .error .failedToOpen ↔ file = none) ∧
    (AeroDataTable.loadFromCSV stod file = .error .stodFailed ↔
      ∃ lines, file = some lines ∧
        ∃ line ∈ dataLines lines true, ∃ t ∈ (tokens line).take 3, stod t = none) ∧
    (AeroDataTable.loadFromCSV stod file = .error .noValidData ↔
      ∃ lines, file = some lines ∧
        (∀ line ∈ dataLines lines true, ∀ t ∈ (tokens line).take 3, stod t ≠ none) ∧
        parsedRows stod (dataLines lines true) = []) ∧
    ((∃ table, AeroDataTable.loadFromCSV stod file = .ok table) ↔
      ∃ lines, file = some lines ∧
        (∀ line ∈ dataLines lines true, ∀ t ∈ (tokens line).take 3, stod t ≠ none) ∧
        parsedRows stod (dataLines lines true) ≠ []) ∧
    (∀ table, AeroDataTable.loadFromCSV stod file = .ok table →
      table.data ≠ [] ∧ table.isEmpty = false) ∧
    ((∀ token, stod token ≠ none) →
      AeroDataTable.loadFromCSV stod file ≠ .error .stodFailed) := by
  cases file with
  | none =>
    simp [AeroDataTable.loadFromCSV]
  | some lines =>
    have hconv : (∀ line ∈ dataLines lines true, parseLine stod line ≠ .threw) ↔
        (∀ line ∈ dataLines lines true, ∀ t ∈ (tokens line).take 3, stod t ≠ none) := by
      constructor
      · intro h line hl t ht hs
        exact h line hl ((parseLine_threw_iff stod line).mpr ⟨t, ht, hs⟩)
      · intro h line hl hp
        obtain ⟨t, ht, hs⟩ := (parseLine_threw_iff stod line).mp hp
        exact h line hl t ht hs
    by_cases hthrow : ∃ line ∈ dataLines lines true, parseLine stod line = .threw
    · have hres := loadFromCSV_throw stod lines hthrow
      have hnot : ¬ (∀ line ∈ dataLines lines true, ∀ t ∈ (tokens line).take 3,
          stod t ≠ none) := by
        intro h
        obtain ⟨line, hl, hp⟩ := hthrow
        exact hconv.mpr h line hl hp
      obtain ⟨line, hl, hp⟩ := hthrow
      obtain ⟨t, ht, hs⟩ := (parseLine_threw_iff stod line).mp hp
      rw [hres]
      refine ⟨by simp, ?_, ?_, ?_, ?_, ?_⟩
      · simp only [true_iff]
        exact ⟨lines, rfl, line, hl, t, ht, hs⟩
      · simp only [Except.error.injEq, reduceCtorEq, false_iff]
        rintro ⟨l2, h2, h3, _⟩
        cases h2
        exact hnot h3
      · constructor
        · rintro ⟨table, h⟩
          cases h
        · rintro ⟨l2, h2, h3, _⟩
          cases h2
          exact absurd h3 hnot
      · intro table h
        cases h
      · intro h
        exact absurd hs (h t)
    · have hno : ∀ line ∈ dataLines lines true, parseLine stod line ≠ .threw := by
        intro line hl hp
        exact hthrow ⟨line, hl, hp⟩
      have hres := loadFromCSV_no_throw stod lines hno
      have hall := hconv.mp hno
      have hnex : ¬ ∃ l2, some lines = some l2 ∧
          ∃ line ∈ dataLines l2 true, ∃ t ∈ (tokens line).take 3, stod t = none := by
        rintro ⟨l2, h2, line, hl, t, ht, hs⟩
        cases h2
        exact hall line hl t ht hs
      cases hrows : parsedRows stod (dataLines lines true) with
      | nil =>
        rw [hrows] at hres
        simp only [List.isEmpty_nil, if_true] at hres
        rw [hres]
        refine ⟨by simp, ?_, ?_, ?_, ?_, ?_⟩
        · simp only [Except.error.injEq, reduceCtorEq, false_iff]
          exact hnex
        · simp only [true_iff]
          exact ⟨lines, rfl, hall, hrows⟩
        · constructor
          · rintro ⟨table, h⟩
            cases h
          · rintro ⟨l2, h2, _, h4⟩
            cases h2
            exact absurd hrows h4
        · intro table h
          cases h
        · intro _
          simp
      | cons p ps =>
        rw [hrows] at hres
        simp only [List.isEmpty_cons, Bool.false_eq_true, if_false] at hres
        rw [hres]
        have hne : sortByAlpha (p :: ps) ≠ [] := by
          intro h
          have := (sortByAlpha_perm (p :: ps)).length_eq
          rw [h] at this
          simp at this
        refine ⟨by simp, ?_, ?_, ?_, ?_, ?_⟩
        · simp only [Except.error.injEq, reduceCtorEq, false_iff]
          exact hnex
        · simp only [Except.error.injEq, reduceCtorEq, false_iff]
          rintro ⟨l2, h2, _, h4⟩
          cases h2
          rw [hrows] at h4
          exact absurd h4 (by simp)
        · constructor
          · intro _
            exact ⟨lines, rfl, hall, by rw [hrows]; simp⟩
          · intro _
            exact ⟨_, rfl⟩
        · intro table h
          cases h
          refine ⟨hne, ?_⟩
          simp only [AeroDataTable.isEmpty]
          cases hs : sortByAlpha (p :: ps) with
          | nil => exact absurd hs hne
          | cons q qs => rfl
        · intro _
          simp

/-- Witness for C13: an unreadable source gives the error for an unreadable source; the
readable source with the header `alpha`, an empty line and the short line `1,2` gives the
error for zero rows; the readable source with the header `alpha` and the line `0,1,2` gives
a table. -/
theorem loadFromCSV_outcomes_witness :
    AeroDataTable.loadFromCSV (stodDecimal : List Char → Option ℚ) none
      = .error .failedToOpen ∧
    AeroDataTable.loadFromCSV (stodDecimal : List Char → Option ℚ)
        (some [['a', 'l', 'p', 'h', 'a'], [], ['1', ',', '2']]) = .error .noValidData ∧
    ∃ table, AeroDataTable.loadFromCSV (stodDecimal : List Char → Option ℚ)
        (some [['a', 'l', 'p', 'h', 'a'], ['0', ',', '1', ',', '2']]) = .ok table := by
  refine ⟨(loadFromCSV_outcomes stodDecimal none).1.mpr rfl, ?_, ?_⟩
  · refine (loadFromCSV_outcomes stodDecimal _).2.2.1.mpr ⟨_, rfl, by decide, ?_⟩
    rw [parsedRows_filter]
    rfl
  · refine (loadFromCSV_outcomes stodDecimal _).2.2.2.1.mpr ⟨_, rfl, by decide, ?_⟩
    intro h
    have hmem : ∀ p : DataPoint (Double ℚ),
        p ∉ parsedRows stodDecimal (dataLines [['a', 'l', 'p', 'h', 'a'],
          ['0', ',', '1', ',', '2']] true) := by
      intro p
      rw [h]
      simp
    have hd : dataLines [['a', 'l', 'p', 'h', 'a'], ['0', ',', '1', ',', '2']] true
        = [['0', ',', '1', ',', '2']] := by decide
    rw [hd] at hmem
    obtain ⟨a, ha⟩ := Option.ne_none_iff_exists.mp
      (by decide : (stodDecimal ['0'] : Option ℚ) ≠ none)
    obtain ⟨cl, hcl⟩ := Option.ne_none_iff_exists.mp
      (by decide : (stodDecimal ['1'] : Option ℚ) ≠ none)
    obtain ⟨cd, hcd⟩ := Option.ne_none_iff_exists.mp
      (by decide : (stodDecimal ['2'] : Option ℚ) ≠ none)
    exact hmem _ ((mem_parsedRows stodDecimal _ _).mpr ⟨_, List.mem_singleton.mpr rfl,
      (parseLine_point_iff stodDecimal _ _).mpr
        ⟨['0'], ['1'], ['2'], [], a, cl, cd, by decide, ha.symm, hcl.symm, hcd.symm, rfl⟩⟩)

/-- C14 fails as stated: in the readable source with the two lines `0,1,2` and `x`, the
second line is non-blank and has one field, fewer than three, yet it is not silently
skipped: `std::stod` throws on `x` before the missing fields are noticed. -/
theorem short_line_raises :
    isBlankLine ['x'] = false ∧ (tokens ['x']).length < 3 ∧
    parseLine (stodDecimal : List Char → Option ℚ) ['x'] = .threw ∧
    AeroDataTable.loadFromCSV (stodDecimal : List Char → Option ℚ)
        (some [['0', ',', '1', ',', '2'], ['x']]) = .error .stodFailed := by
  have hp : parseLine (stodDecimal : List Char → Option ℚ) ['x'] = .threw :=
    (parseLine_threw_iff stodDecimal ['x']).mpr ⟨['x'], by decide, by decide⟩
  refine ⟨by decide, by decide, hp, ?_⟩
  apply loadFromCSV_throw
  exact ⟨['x'], by decide, hp⟩

/-- C14, amended: a line handed to the parser is silently skipped, with no point and no
error, exactly when it has fewer than three fields and `std::stod` converts all of them; a
line with fewer than three fields one of which does not convert makes `std::stod` throw;
a point is only made of a line with at least three fields.  So for a readable source all
of whose fields read convert, the collected points are exactly, in order, those of the
non-blank lines with at least three fields other than a skipped header, and the table
returned is a permutation of them.  A field is a token read by `std::getline` with the
delimiter `,`. -/
theorem short_lines_skipped (stod : List Char → Option K) (line : List Char) :
    (parseLine stod line = .skipped ↔
      (tokens line).length < 3 ∧ ∀ t ∈ tokens line, stod t ≠ none) ∧
    ((tokens line).length < 3 → (∃ t ∈ tokens line, stod t = none) →
      parseLine stod line = .threw) ∧
    (∀ p, parseLine stod line = .point p → 3 ≤ (tokens line).length) ∧
    (∀ lines : List (List Char),
      (∀ l ∈ dataLines lines true, ∀ t ∈ (tokens l).take 3, stod t ≠ none) →
      readLines stod lines true []
        = .ok (parsedRows stod ((dataLines lines true).filter
            (fun l => decide (3 ≤ (tokens l).length)))) ∧
      ∀ table, AeroDataTable.loadFromCSV stod (some lines) = .ok table →
        table.data.Perm (parsedRows stod ((dataLines lines true).filter
            (fun l => decide (3 ≤ (tokens l).length))))) := by
  refine ⟨parseLine_skipped_iff stod line, ?_, ?_, ?_⟩
  · intro hlen ⟨t, ht, hs⟩
    rw [parseLine_threw_iff]
    exact ⟨t, by rwa [List.take_of_length_le (by omega)], hs⟩
  · intro p hp
    obtain ⟨t1, t2, t3, r, _, _, _, ht, _⟩ := (parseLine_point_iff stod line p).mp hp
    rw [ht]
    simp
  · intro lines hall
    have hno : ∀ l ∈ dataLines lines true, parseLine stod l ≠ .threw := by
      intro l hl hp
      obtain ⟨t, ht, hs⟩ := (parseLine_threw_iff stod l).mp hp
      exact hall l hl t ht hs
    constructor
    · rw [readLines_ok stod lines true [] hno, List.nil_append, ← parsedRows_filter]
    · intro table htab
      rw [loadFromCSV_no_throw stod lines hno] at htab
      rw [← parsedRows_filter]
      split_ifs at htab
      cases htab
      exact sortByAlpha_perm _

/-- Witness for C14: with the decimal conversion, the line `5,6` has two fields, both
numeric, and is skipped. -/
theorem short_lines_skipped_witness :
    parseLine (stodDecimal : List Char → Option ℚ) ['5', ',', '6'] = .skipped :=
  (short_lines_skipped stodDecimal ['5', ',', '6']).1.mpr ⟨by decide, by decide⟩

/-- C15: when `loadFromCSV` returns a table, its points are a permutation of the parsed
rows; each point is `(a * M_PI / 180, CL, CD)` for the numbers `a`, `CL`, `CD` that
`std::stod` makes of the first three fields of a line of the source; the points are sorted
ascending by `alpha`, `data[i].alpha ≤ data[i+1].alpha` for every `i`; and
`getMinAlpha() ≤ getMaxAlpha()`. -/
theorem loadFromCSV_sorted (stod : List Char → Option K) (file : Option (List (List Char)))
    (table : AeroDataTable K) (h : AeroDataTable.loadFromCSV stod file = .ok table) :
    ∃ lines, file = some lines ∧
      table.data.Perm (parsedRows stod (dataLines lines true)) ∧
      (∀ p ∈ table.data, ∃ line ∈ lines, ∃ t1 t2 t3 rest a cl cd,
        tokens line = t1 :: t2 :: t3 :: rest ∧ stod t1 = some a ∧ stod t2 = some cl ∧
        stod t3 = some cd ∧ p = ⟨val (a * 3.14159265358979323846 / 180), val cl, val cd⟩) ∧
      (∀ i : ℕ, i + 1 < table.data.length →
        (table.nth i).alpha ≤ (table.nth (i + 1)).alpha) ∧
      table.getMinAlpha ≤ table.getMaxAlpha := by
  obtain ⟨lines, hfile, hne, hdata⟩ := loadFromCSV_ok stod file table h
  have hperm : table.data.Perm (parsedRows stod (dataLines lines true)) := by
    rw [hdata]
    exact sortByAlpha_perm _
  have hform : ∀ p ∈ parsedRows stod (dataLines lines true), ∃ line ∈ lines,
      ∃ t1 t2 t3 rest a cl cd,
        tokens line = t1 :: t2 :: t3 :: rest ∧ stod t1 = some a ∧ stod t2 = some cl ∧
        stod t3 = some cd ∧ p = ⟨val (a * 3.14159265358979323846 / 180), val cl, val cd⟩ := by
    intro p hp
    obtain ⟨line, hl, hpl⟩ := (mem_parsedRows stod _ p).mp hp
    exact ⟨line, mem_of_mem_dataLines line lines true hl,
      (parseLine_point_iff stod line p).mp hpl⟩
  have hreal : ∀ p ∈ parsedRows stod (dataLines lines true), ∃ b : K, p.alpha = val b := by
    intro p hp
    obtain ⟨_, _, _, _, _, _, a, _, _, _, _, _, _, hpe⟩ := hform p hp
    exact ⟨_, by rw [hpe]⟩
  have hsorted : table.data.Pairwise (fun x y => x.alpha ≤ y.alpha) := by
    rw [hdata]
    exact sortByAlpha_sorted _ hreal
  have hpw := List.pairwise_iff_getElem.mp hsorted
  have hnth : ∀ (i : ℕ) (hi : i < table.data.length), table.nth i = table.data[i] := by
    intro i hi
    rw [AeroDataTable.nth]
    exact List.getD_eq_getElem _ _ hi
  have hlen : 0 < table.data.length := by
    rw [hperm.length_eq]
    exact List.length_pos.mpr hne
  refine ⟨lines, hfile, hperm, fun p hp => hform p (hperm.mem_iff.mp hp), ?_, ?_⟩
  · intro i hi
    rw [hnth i (by omega), hnth (i + 1) hi]
    exact hpw i (i + 1) (by omega) hi (by omega)
  · have hempty : table.data.isEmpty = false := by
      cases hd : table.data with
      | nil =>
        rw [hd] at hlen
        simp at hlen
      | cons q qs => rfl
    simp only [AeroDataTable.getMinAlpha, AeroDataTable.getMaxAlpha, hempty,
      AeroDataTable.front, AeroDataTable.back, Bool.false_eq_true, if_false]
    rw [hnth 0 hlen, hnth (table.data.length - 1) (by omega)]
    rcases Nat.eq_or_lt_of_le (Nat.succ_le_of_lt hlen) with h1 | h1
    · have h0 : table.data.length - 1 = 0 := by omega
      obtain ⟨b, hb⟩ := hreal table.data[0] (hperm.mem_iff.mp (List.getElem_mem _))
      simp only [h0, hb, Double.val_le_val, le_refl]
    · exact hpw 0 (table.data.length - 1) hlen (by omega) (by omega)

/-- Witness for C15: the source with the header `alpha` and the lines `10,1,2` and `0,3,4`
loads, with the decimal conversion, as the table `(0, 3, 4), (10 * M_PI / 180, 1, 2)`,
whose smallest angle is at most its largest. -/
theorem loadFromCSV_sorted_witness :
    AeroDataTable.loadFromCSV (stodDecimal : List Char → Option ℚ)
        (some [['a', 'l', 'p', 'h', 'a'], ['1', '0', ',', '1', ',', '2'],
          ['0', ',', '3', ',', '4']])
      = .ok ⟨[⟨val 0, val 3, val 4⟩,
          ⟨val (10 * 3.14159265358979323846 / 180), val 1, val 2⟩]⟩ ∧
    (AeroDataTable.mk [⟨val 0, val 3, val 4⟩,
        ⟨val ((10 : ℚ) * 3.14159265358979323846 / 180), val 1, val 2⟩]).getMinAlpha
      ≤ (AeroDataTable.mk [⟨val 0, val 3, val 4⟩,
        ⟨val ((10 : ℚ) * 3.14159265358979323846 / 180), val 1, val 2⟩]).getMaxAlpha := by
  have h10 : (stodDecimal ['1', '0'] : Option ℚ) = some 10 := by
    simp [stodDecimal, digitsValue, exponentValue, isSpaceChar]
  have h0 : (stodDecimal ['0'] : Option ℚ) = some 0 := by
    simp [stodDecimal, digitsValue, exponentValue, isSpaceChar]
  have h1 : (stodDecimal ['1'] : Option ℚ) = some 1 := by
    simp [stodDecimal, digitsValue, exponentValue, isSpaceChar]
  have h2 : (stodDecimal ['2'] : Option ℚ) = some 2 := by
    simp [stodDecimal, digitsValue, exponentValue, isSpaceChar]
  have h3 : (stodDecimal ['3'] : Option ℚ) = some 3 := by
    simp [stodDecimal, digitsValue, exponentValue, isSpaceChar]
  have h4 : (stodDecimal ['4'] : Option ℚ) = some 4 := by
    simp [stodDecimal, digitsValue, exponentValue, isSpaceChar]
  have hload : AeroDataTable.loadFromCSV (stodDecimal : List Char → Option ℚ)
        (some [['a', 'l', 'p', 'h', 'a'], ['1', '0', ',', '1', ',', '2'],
          ['0', ',', '3', ',', '4']])
      = .ok ⟨[⟨val 0, val 3, val 4⟩,
          ⟨val (10 * 3.14159265358979323846 / 180), val 1, val 2⟩]⟩ := by
    simp [AeroDataTable.loadFromCSV, readLines, isBlankLine, startsWithLetter, parseLine,
      getToken, h10, h0, h1, h2, h3, h4, sortByAlpha, insertByAlpha, M_PI]
    norm_num
  obtain ⟨_, _, _, _, _, hmm⟩ := loadFromCSV_sorted stodDecimal _ _ hload
  exact ⟨hload, hmm⟩

end FlightSim
